import Mathlib

/-! # FuncFinder: the function-boundary scanner of `FuncFinder.cpp`

A shallow embedding of `findFunction` and `processFile` and the properties
proved about them.

Conventions of the embedding.

* A line (what `std::getline` delivers, without its `'\n'`) is a `List Char`, one
  `Char` for one `char` of the source; an input stream is the list of the lines
  still unread.
* A `std::regex` is represented by its anchored matcher (`Regex.matchAt`): the
  length of the match that the ECMAScript backtracking matcher selects at one
  position, given the character before that position (needed by `\b` and `^`)
  and the text from that position on.  `regex_search`, `regex_replace` and
  `countMatches` are defined once, for every such matcher.  The search pattern
  of the user is an arbitrary `Regex`.
* Character classes are those of the classic "C" locale: `\w` is
  `[A-Za-z0-9_]`, `\s` is blank, `\t`, `\n`, `\v`, `\f`, `\r`; `.` is any
  character but `\n` and `\r`; `^` is the start of the string.
* `size_t` line counters are `Nat` and the `int` bracket counter is `Int`: the
  embedding is exact for streams of fewer than `2^64 - 1` lines and fewer than
  `2^31` brackets; the not-found value `-1` converted to `size_t` is
  `notFound = 2^64 - 1`.
-/

namespace FuncFinder

/-! ## Lines, text and character classes -/

/-- One line of input, without the line feed that ended it. -/
abbrev Line := List Char

/-- Text written to an output stream. -/
abbrev Text := List Char

/-- Characters that `.` does not match. -/
def isLineTerm (c : Char) : Bool := c == '\n' || c == '\r'

/-- The class `\s`. -/
def isSpaceChar (c : Char) : Bool :=
  c == ' ' || c == '\t' || c == '\n' || c == '\x0b' || c == '\x0c' || c == '\r'

/-- The class `\w`. -/
def isWordChar (c : Char) : Bool := c.isAlphanum || c == '_'

/-- The class `[^\d\W]`: a word character that is not a digit. -/
def isIdentStart (c : Char) : Bool := isWordChar c && !c.isDigit

/-- Whether the text starts with a word character (false at the end of the string). -/
def wordNext (s : Line) : Bool :=
  match s with
  | [] => false
  | c :: _ => isWordChar c

/-- Whether the character before the current position is a word character
(false at the start of the string). -/
def wordPrev (prev : Option Char) : Bool :=
  match prev with
  | none => false
  | some c => isWordChar c

/-! ## Regular expressions -/

/-- A compiled regular expression, given by its anchored matcher: `matchAt prev s`
is the length of the match starting at the current position, where `prev` is the
character before that position (`none` at the start of the string) and `s` the
text from that position to the end of the string. -/
structure Regex where
  matchAt : Option Char → Line → Option Nat

/-- Search for a match starting at the current position or at a later one. -/
def searchFrom (re : Regex) : Option Char → Line → Bool
  | prev, [] => (re.matchAt prev []).isSome
  | prev, c :: rest => (re.matchAt prev (c :: rest)).isSome || searchFrom re (some c) rest

/-- The call `std::regex_search(s, re)`: some position of `s` starts a match. -/
def regex_search (s : Line) (re : Regex) : Bool := searchFrom re none s

/-- Left-to-right replacement of the successive matches; the first argument counts
the characters of the current match that are still to be dropped.  The
expressions this is used with match two characters at least, and the rules of
the iterator for empty matches are left out. -/
def replaceFrom (re : Regex) (fmt : Text) : Nat → Option Char → Line → Line
  | _, _, [] => []
  | k + 1, _, c :: rest => replaceFrom re fmt k (some c) rest
  | 0, prev, c :: rest =>
    match re.matchAt prev (c :: rest) with
    | some n => fmt ++ replaceFrom re fmt (n - 1) (some c) rest
    | none => c :: replaceFrom re fmt 0 (some c) rest

/-- The call `std::regex_replace(s, re, fmt)` for a format without `$`. -/
def regex_replace (s : Line) (re : Regex) (fmt : Text) : Line :=
  replaceFrom re fmt 0 none s

/-- Number of successive matches from the current position on; the first argument
counts the characters of the current match that are still to be passed.  As for
`replaceFrom`, the expression this is used with has no empty match. -/
def countFrom (re : Regex) : Nat → Option Char → Line → Nat
  | _, _, [] => 0
  | k + 1, _, c :: rest => countFrom re k (some c) rest
  | 0, prev, c :: rest =>
    match re.matchAt prev (c :: rest) with
    | some n => 1 + countFrom re (n - 1) (some c) rest
    | none => countFrom re 0 (some c) rest

/-- Source lines 38-43, `countMatches(const std::string&, const std::regex&)`: the
distance between the `sregex_iterator` over `s` and the end iterator. -/
def countMatches (s : Line) (exp : Regex) : Nat := countFrom exp 0 none s

/-- A regular expression with one capture group that is used through
`regex_search(s, m, re)` and `m[1]`: the anchored matcher gives the text of
group 1. -/
structure CaptureRegex where
  groupAt : Line → Option Line

/-- The call `regex_search(s, m, re)` followed by `m[1].str()`: group 1 of the
match at the leftmost position that starts one. -/
def searchGroup (re : CaptureRegex) : Line → Option Line
  | [] => re.groupAt []
  | c :: rest =>
    match re.groupAt (c :: rest) with
    | some g => some g
    | none => searchGroup re rest

/-- The pattern that matches the given characters literally (for a text without
characters special to the regular expression syntax, the text itself). -/
def Regex.literal (w : Line) : Regex where
  matchAt := fun _ s => if w.isPrefixOf s then some w.length else none

/-! ## The expressions of `findFunction` (source lines 57-74) -/

/-- Whether the word `w` stands at the current position with a word boundary on
each side: `\bw\b` for a `w` made of word characters. -/
def wholeWordAt (w : Line) (prev : Option Char) (s : Line) : Bool :=
  !wordPrev prev && w.isPrefixOf s && !wordNext (s.drop w.length)

/-- Source line 60: `\b(?:(?:namespace)|(?:class))\b`. -/
def nsClassExp : Regex where
  matchAt := fun prev s =>
    if wholeWordAt "namespace".toList prev s then some 9
    else if wholeWordAt "class".toList prev s then some 5
    else none

/-- The tail `\s*[^\d\W]\w*\s*` of the second and third alternative of
`usingNSClassExp`: the text left after it, if it matches. -/
def afterName (s : Line) : Option Line :=
  match s.dropWhile isSpaceChar with
  | [] => none
  | c :: rest =>
    if isIdentStart c then some ((rest.dropWhile isWordChar).dropWhile isSpaceChar) else none

/-- The first alternative `\busing\s+namespace\b` after its leading `\b`: the text
left after the match. -/
def usingNamespaceRest (s : Line) : Option Line :=
  if "using".toList.isPrefixOf s then
    match s.drop 5 with
    | [] => none
    | c :: rest =>
      let t := rest.dropWhile isSpaceChar
      if isSpaceChar c && "namespace".toList.isPrefixOf t && !wordNext (t.drop 9) then
        some (t.drop 9)
      else none
  else none

/-- The second alternative `\bnamespace\s*[^\d\W]\w*\s*=` after its leading `\b`. -/
def namespaceAliasRest (s : Line) : Option Line :=
  if "namespace".toList.isPrefixOf s then
    match afterName (s.drop 9) with
    | some (c :: rest) => if c = '=' then some rest else none
    | _ => none
  else none

/-- The third alternative `(?:\bclass\s*[^\d\W]\w*\s*)[;,>]` after its leading `\b`. -/
def classMentionRest (s : Line) : Option Line :=
  if "class".toList.isPrefixOf s then
    match afterName (s.drop 5) with
    | some (c :: rest) => if c = ';' ∨ c = ',' ∨ c = '>' then some rest else none
    | _ => none
  else none

/-- Source lines 61-64: the three alternatives, tried in order. -/
def usingNSClassExp : Regex where
  matchAt := fun prev s =>
    if wordPrev prev then none
    else
      match usingNamespaceRest s with
      | some t => some (s.length - t.length)
      | none =>
        match namespaceAliasRest s with
        | some t => some (s.length - t.length)
        | none =>
          match classMentionRest s with
          | some t => some (s.length - t.length)
          | none => none

/-- Source line 65: `\/\/.*`, two slashes and the rest up to a line terminator. -/
def lineCommentExp : Regex where
  matchAt := fun _ s =>
    if ['/', '/'].isPrefixOf s then
      some (2 + ((s.drop 2).takeWhile (fun c => !isLineTerm c)).length)
    else none

/-- The part `(?:.*?)\*\/` of `spanCommentExp`: the number of characters up to and
including the first `*/`, when no line terminator comes before it. -/
def lazyToClose : Line → Option Nat
  | [] => none
  | c :: rest =>
    if ['*', '/'].isPrefixOf (c :: rest) then some 2
    else if isLineTerm c then none
    else (lazyToClose rest).map (· + 1)

/-- Source line 67: `\/\*(?:.*?)\*\/`. -/
def spanCommentExp : Regex where
  matchAt := fun _ s =>
    if ['/', '*'].isPrefixOf s then (lazyToClose (s.drop 2)).map (· + 2) else none

/-- Anchored `(.*?)\/\*.*`: group 1 is the text before the first `/*`, when no line
terminator comes before it; the final `.*` always matches. -/
def begGroupAt : Line → Option Line
  | [] => none
  | c :: rest =>
    if ['/', '*'].isPrefixOf (c :: rest) then some []
    else if isLineTerm c then none
    else (begGroupAt rest).map (c :: ·)

/-- Source line 68: `(.*?)\/\*.*`. -/
def begMultiLineCommentExp : CaptureRegex where
  groupAt := begGroupAt

/-- Anchored `.*?\*\/(.*)`: group 1 is the text after the first `*/` up to the next
line terminator, when no line terminator comes before that `*/`. -/
def endGroupAt : Line → Option Line
  | [] => none
  | c :: rest =>
    if ['*', '/'].isPrefixOf (c :: rest) then
      some ((rest.drop 1).takeWhile (fun d => !isLineTerm d))
    else if isLineTerm c then none
    else endGroupAt rest

/-- Source line 69: `.*?\*\/(.*)`. -/
def endMultiLineCommentExp : CaptureRegex where
  groupAt := endGroupAt

/-- Source line 70: `^\s*#include\b`; `^` holds at the start of the string only. -/
def includeExp : Regex where
  matchAt := fun prev s =>
    match prev with
    | some _ => none
    | none =>
      let t := s.dropWhile isSpaceChar
      if "#include".toList.isPrefixOf t && !wordNext (t.drop 8) then
        some (s.length - (t.drop 8).length)
      else none

/-- The body and closing quote of a quoted literal, `[^q\\]*(?:\\.[^q\\]*)*q` for
the quote character `q`: the number of characters up to and including the
closing quote. -/
def quotedBody (q : Char) : Line → Option Nat
  | [] => none
  | c :: rest =>
    if c = q then some 1
    else if c = '\\' then
      match rest with
      | [] => none
      | d :: rest' => if isLineTerm d then none else (quotedBody q rest').map (· + 2)
    else (quotedBody q rest).map (· + 1)

/-- Source lines 73-74: a double-quoted or a single-quoted literal with escapes. -/
def quotedStrExp : Regex where
  matchAt := fun _ s =>
    match s with
    | [] => none
    | c :: rest =>
      if c = '"' ∨ c = '\'' then (quotedBody c rest).map (· + 1) else none

/-! ## `findFunction` (source lines 54-137) -/

/-- The value `-1` converted to `size_t`. -/
def notFound : Nat := 2 ^ 64 - 1

/-- The local variables of `findFunction` that live across loop iterations. -/
structure State where
  lines : List Line
  numOpenBrackets : Int
  foundLoc : Nat
  begLineNum : Nat
  endLineNum : Nat
  inMultiLineComment : Bool
deriving DecidableEq, Repr

/-- Source lines 76-80: the initial values. -/
def State.init : State :=
  { lines := [], numOpenBrackets := 0, foundLoc := 0, begLineNum := 1, endLineNum := 1,
    inMultiLineComment := false }

/-- Source lines 83-87: the helper `reset`. -/
def State.reset (st : State) : State :=
  { st with lines := [], numOpenBrackets := 0, begLineNum := st.endLineNum + 1 }

/-- Source line 128: every buffered line followed by a line feed. -/
def emitLines : List Line → Text
  | [] => []
  | x :: rest => x ++ '\n' :: emitLines rest

/-- Source lines 91-100: removal of the comments that open and close on the line,
then the update of the multi-line comment state.  Gives the new `s` and the new
`inMultiLineComment`. -/
def commentStage (inMultiLineComment : Bool) (raw : Line) : Line × Bool :=
  let s := regex_replace raw spanCommentExp [' ']
  if !inMultiLineComment then
    match searchGroup begMultiLineCommentExp s with
    | some m1 => (m1, true)
    | none => (s, false)
  else
    match searchGroup endMultiLineCommentExp s with
    | some m1 => (m1, false)
    | none => (s, true)

/-- Source lines 102-103: removal of line comments, then of quoted literals. -/
def stripStage (s : Line) : Line :=
  regex_replace (regex_replace s lineCommentExp []) quotedStrExp []

/-- How one iteration of the loop ends: with the next iteration (also after
`continue`), or with the `return` of line 129. -/
inductive Step where
  | next (st : State)
  | ret (result : Nat × Nat × Nat) (out : Text)
deriving DecidableEq, Repr

/-- Source line 106: the line of the latest match of the search pattern. -/
def recordMatch (regExp : Regex) (s : Line) (st : State) : State :=
  if regex_search s regExp = true then { st with foundLoc := st.endLineNum } else st

/-- Source lines 108-112: on a namespace or class that opens a scope, `reset` and
the subtraction of the number of keywords from the bracket counter. -/
def scopeOpener (s : Line) (st : State) : State :=
  if regex_search s nsClassExp = true ∧ regex_search s usingNSClassExp = false then
    { st.reset with
      numOpenBrackets := st.reset.numOpenBrackets - (countMatches s nsClassExp : Int) }
  else st

/-- Source lines 115-120, the part on `numOpenBrackets`: one more for every `{` of the
line (the `}` of the line are counted in `numCloseBrackets`). -/
def openBrackets (s : Line) (st : State) : State :=
  { st with numOpenBrackets := st.numOpenBrackets + (s.count '{' : Int) }

/-- Source lines 122-133: the closing brackets of the line, the `return` at the end
of a block with a match, `reset` at the end of a block without one. -/
def closeBrackets (os : Bool) (numCloseBrackets : Int) (st : State) : Step :=
  if 0 < numCloseBrackets then
    let st' : State := { st with numOpenBrackets := st.numOpenBrackets - numCloseBrackets }
    if st'.numOpenBrackets ≤ 0 then
      if 0 < st'.foundLoc then
        .ret (st'.foundLoc, st'.begLineNum, st'.endLineNum)
          (if os then emitLines st'.lines else [])
      else .next st'.reset
    else .next st'
  else .next st

/-- Source lines 104-133: the rest of the loop body, for the normalized line `s`. -/
def scanLine (regExp : Regex) (os : Bool) (st : State) (s : Line) : Step :=
  if st.foundLoc = 0 ∧ regex_search s includeExp = true then .next st.reset
  else
    closeBrackets os (s.count '}' : Int)
      (openBrackets s (scopeOpener s (recordMatch regExp s st)))

/-- Source line 90: with an output stream, the raw line goes to the buffer. -/
def pushLine (os : Bool) (st : State) (raw : Line) : State :=
  if os then { st with lines := st.lines ++ [raw] } else st

/-- Source lines 90-133: the loop body for the raw line `raw`; `os` tells whether an
output stream was passed. -/
def body (regExp : Regex) (os : Bool) (st : State) (raw : Line) : Step :=
  let sc := commentStage st.inMultiLineComment raw
  let st1 : State := { pushLine os st raw with inMultiLineComment := sc.2 }
  if st1.inMultiLineComment then .next st1
  else scanLine regExp os st1 (stripStage sc.1)

/-- What a call of `findFunction` leaves behind: the returned tuple, the text
written to the output stream and the lines left unread in the input stream. -/
structure Outcome where
  result : Nat × Nat × Nat
  os : Text
  is : List Line
deriving DecidableEq, Repr

/-- Source lines 89-136: the loop over the lines of the stream and the final
`return` of the not-found value. -/
def loop (regExp : Regex) (os : Bool) : State → List Line → Outcome
  | st, [] => { result := (notFound, st.begLineNum, st.endLineNum), os := [], is := [] }
  | st, raw :: rest =>
    match body regExp os st raw with
    | .next st' => loop regExp os { st' with endLineNum := st'.endLineNum + 1 } rest
    | .ret r out => { result := r, os := out, is := rest }

/-- Source lines 54-137: `findFunction(is, regExp, os)`. -/
def findFunction (is : List Line) (regExp : Regex) (os : Bool) : Outcome :=
  loop regExp os State.init is

/-! ## `processFile` (source lines 143-172) -/

/-- One block printed to `std::cout` (source lines 165-169): the header
`== fileName(matchLine) range [startLine,endLine] ==` and the text of the string
stream after it. -/
structure Block where
  fileName : String
  matchLine : Nat
  startLine : Nat
  endLine : Nat
  text : Text
deriving DecidableEq, Repr

/-- What a run of `processFile` on a readable file does: the blocks printed, in
order, and the number of calls of `findFunction` made. -/
structure Report where
  cout : List Block
  calls : Nat
deriving DecidableEq, Repr

/-- Source lines 153-156: the first pass over the raw lines, `found` at its end. -/
def preScan (grepExp : Regex) : List Line → Bool
  | [] => false
  | s :: rest => if regex_search s grepExp = true then true else preScan grepExp rest

/-- Source lines 160-171: the loop of calls of `findFunction` on what is left of the
stream.  The first argument bounds the number of iterations; `none` means that
the bound was reached before the loop ended. -/
def driverLoop (grepExp : Regex) (fileName : String) : Nat → Nat → List Line → Option Report
  | 0, _, _ => none
  | fuel + 1, total, ifs =>
    let r := findFunction ifs grepExp true
    if r.result.1 = notFound then some { cout := [], calls := 1 }
    else
      match driverLoop grepExp fileName fuel (total + r.result.2.2) r.is with
      | none => none
      | some rep =>
        some { cout := { fileName := fileName, matchLine := total + r.result.1,
                         startLine := total + r.result.2.1, endLine := total + r.result.2.2,
                         text := r.os } :: rep.cout,
               calls := rep.calls + 1 }

/-- Source lines 143-172: `processFile` on a file that could be opened, whose lines
are `file`; the compiled `regExpStr` is `grepExp`.  Every call of `findFunction`
but the last reads one line at least, so that `file.length + 1` iterations are
enough (`processFile_terminates`). -/
def processFile (grepExp : Regex) (fileName : String) (file : List Line) : Option Report :=
  if preScan grepExp file = true then driverLoop grepExp fileName (file.length + 1) 0 file
  else some { cout := [], calls := 0 }

/-! ## Vocabulary of the statements -/

/-- The lines numbered `b` to `e` of a stream, the first line having number 1. -/
def linesRange (stream : List Line) (b e : Nat) : List Line :=
  (stream.take e).drop (b - 1)

/-- The invariant of the line buffer in the middle of an iteration, for a call with
an output stream: `seen` are the lines read so far, the current one included;
the buffer holds the lines from `begLineNum` on. -/
def Mid (seen : List Line) (st : State) : Prop :=
  st.endLineNum = seen.length ∧ 1 ≤ st.begLineNum ∧ st.begLineNum ≤ st.endLineNum + 1 ∧
    st.lines = seen.drop (st.begLineNum - 1)

/-- The pattern `foo` of the examples. -/
def fooExp : Regex := Regex.literal "foo".toList

/-- Example 1 of the specification. -/
def example1 : List Line :=
  ["void foo() \x7b".toList, "  int x = 1;".toList, "\x7d".toList]

/-- Whether the characters of `w` occur in `s` one after the other. -/
def occursIn (w : Line) : Line → Bool
  | [] => w.isPrefixOf []
  | c :: rest => w.isPrefixOf (c :: rest) || occursIn w rest

/-- A plain line: no `/*`, no `//`, no quote character, no `#`, and neither of the
words `namespace` and `class`. -/
def Plain (l : Line) : Prop :=
  occursIn ['/', '*'] l = false ∧ occursIn ['/', '/'] l = false ∧ '"' ∉ l ∧ '\'' ∉ l ∧
    '#' ∉ l ∧ regex_search l nsClassExp = false

instance Plain.decidable (l : Line) : Decidable (Plain l) := by
  unfold Plain
  infer_instance

/-- The `{` of a line less its `}`. -/
def braceDelta (l : Line) : Int := (l.count '{' : Int) - (l.count '}' : Int)

/-- The running count of `{` less `}` over a list of lines. -/
def depthOver (ls : List Line) : Int := (ls.map braceDelta).sum

/-- Line `i + 1` of `F` is a boundary close: it has a `}` and the running count over
the lines 1 to `i + 1` of `F` is at most 0. -/
def ClosesAt (F : List Line) (i : Nat) : Prop :=
  0 < (F.getD i []).count '}' ∧ depthOver (F.take (i + 1)) ≤ 0

instance ClosesAt.decidable (F : List Line) (i : Nat) : Decidable (ClosesAt F i) := by
  unfold ClosesAt
  infer_instance

/-- The only boundary close among the lines of `F` is its last line. -/
def ClosesOnlyAtEnd (F : List Line) : Prop :=
  ∀ i, i < F.length → (ClosesAt F i ↔ i + 1 = F.length)

instance ClosesOnlyAtEnd.decidable (F : List Line) : Decidable (ClosesOnlyAtEnd F) := by
  unfold ClosesOnlyAtEnd
  infer_instance

/-- Auxiliary: no line of the list is a boundary close when the depth before the
list is `d`. -/
def noClose : Int → List Line → Prop
  | _, [] => True
  | d, x :: r => ¬ (0 < x.count '}' ∧ d + braceDelta x ≤ 0) ∧ noClose (d + braceDelta x) r

/-- Auxiliary: the state after an iteration on a plain line that is no boundary
close. -/
def plainStep (regExp : Regex) (os : Bool) (st : State) (x : Line) : State :=
  { lines := if os then st.lines ++ [x] else st.lines
    numOpenBrackets := st.numOpenBrackets + braceDelta x
    foundLoc := if regex_search x regExp = true then st.endLineNum else st.foundLoc
    begLineNum := st.begLineNum
    endLineNum := st.endLineNum + 1
    inMultiLineComment := false }

/-- Auxiliary: the state after iterations on plain lines none of which is a boundary
close. -/
def afterPlain (regExp : Regex) (os : Bool) (st : State) (p : List Line) : State :=
  p.foldl (plainStep regExp os) st

/-- The second and third line of example 1. -/
def example1Tail : List Line := ["  int x = 1;".toList, "\x7d".toList]

/-- A line that the scanner, when it reads it outside a comment, takes for the
opening of exactly one scope: the line does not leave a comment open, and its
normalized text is no inclusion directive, has the word namespace or class and
none of the excluded forms, has that word once, has one `{` and no `}`. -/
def OpensOneScope (opener : Line) : Prop :=
  (commentStage false opener).2 = false ∧
  regex_search (stripStage (commentStage false opener).1) includeExp = false ∧
  regex_search (stripStage (commentStage false opener).1) nsClassExp = true ∧
  regex_search (stripStage (commentStage false opener).1) usingNSClassExp = false ∧
  countMatches (stripStage (commentStage false opener).1) nsClassExp = 1 ∧
  (stripStage (commentStage false opener).1).count '{' = 1 ∧
  (stripStage (commentStage false opener).1).count '}' = 0

instance OpensOneScope.decidable (opener : Line) : Decidable (OpensOneScope opener) := by
  unfold OpensOneScope
  infer_instance

/-- The line that closes a scope. -/
def closingBrace : Line := "\x7d".toList

/-- The pattern `\}`, which matches a closing bracket. -/
def braceExp : Regex := Regex.literal "\x7d".toList

/-- A namespace with one function in it. -/
def scopeOpenerLine : Line := "namespace N \x7b".toList

/-- The first line of the function in the namespace. -/
def scopeFunctionLine : Line := "void f() \x7b".toList

/-- The value of `total` after one more successful call of `findFunction`: the
number of lines read by the calls before, plus the last line read that the call
on the rest of the file returns. -/
def nextTotal (grepExp : Regex) (file : List Line) (total : Nat) : Nat :=
  total + (findFunction (file.drop total) grepExp true).result.2.2

/-- The value of `total` when call `k + 1` of the driver loop is made, that is the
number of lines read by the calls 1 to `k`. -/
def totalBefore (grepExp : Regex) (file : List Line) (k : Nat) : Nat :=
  (nextTotal grepExp file)^[k] 0

/-- Example 2 of the specification. -/
def example2 : List Line :=
  ["namespace N \x7b".toList, "void bar() \x7b".toList,
   "  // foo appears here only in a comment".toList, "\x7d".toList, "\x7d".toList]

/-- Whether the line `raw`, read in the state `st`, reaches the assignment of source
line 106 with a normalized text that matches the pattern: the line is not skipped
as inside a comment, nor by the reset on an inclusion directive. -/
def recorderHits (regExp : Regex) (st : State) (raw : Line) : Bool :=
  !(commentStage st.inMultiLineComment raw).2 &&
  !(decide (st.foundLoc = 0) &&
      regex_search (stripStage (commentStage st.inMultiLineComment raw).1) includeExp) &&
  regex_search (stripStage (commentStage st.inMultiLineComment raw).1) regExp

/-- The state in which the loop reads the line that follows the lines `pre`, when no
iteration on a line of `pre` returns. -/
def stateAfter (regExp : Regex) (os : Bool) : State → List Line → Option State
  | st, [] => some st
  | st, raw :: rest =>
    match body regExp os st raw with
    | .next st' => stateAfter regExp os { st' with endLineNum := st'.endLineNum + 1 } rest
    | .ret _ _ => none

/-- Whether line `n` of the stream `is` (the first line having number 1) reaches
the assignment of source line 106 with a match, in a call of `findFunction` that
gets as far as line `n`. -/
def hitAt (regExp : Regex) (os : Bool) (is : List Line) (n : Nat) : Option Bool :=
  match stateAfter regExp os State.init (is.take (n - 1)), is[n - 1]? with
  | some st, some raw => some (recorderHits regExp st raw)
  | _, _ => none

/-- Content of a `//` comment that the claim on comments covers: no line terminator,
no `*/`, and no `/*`, not even one made with the second `/` of the `//`. -/
def LineCommentContent (body : Line) : Prop :=
  (∀ c ∈ body, isLineTerm c = false) ∧ occursIn ['*', '/'] body = false ∧
    occursIn ['/', '*'] ('/' :: body) = false

instance LineCommentContent.decidable (body : Line) : Decidable (LineCommentContent body) := by
  unfold LineCommentContent
  infer_instance

/-- Content of a `/* */` comment that the claim on comments covers: no line
terminator and no `*/`. -/
def SpanCommentContent (body : Line) : Prop :=
  (∀ c ∈ body, isLineTerm c = false) ∧ occursIn ['*', '/'] body = false

instance SpanCommentContent.decidable (body : Line) : Decidable (SpanCommentContent body) := by
  unfold SpanCommentContent
  infer_instance

/-- Content `body` of a literal in the quote character `q` after the text `pre` that
the claim on literals covers: no `q` and no backslash in the content, and none
of `//`, `/*`, `*/` in the line up to the closing quote. -/
def QuotedContent (q : Char) (pre body : Line) : Prop :=
  q ∉ body ∧ '\\' ∉ body ∧
    occursIn ['/', '/'] (pre ++ q :: (body ++ [q])) = false ∧
    occursIn ['/', '*'] (pre ++ q :: (body ++ [q])) = false ∧
    occursIn ['*', '/'] (pre ++ q :: (body ++ [q])) = false

instance QuotedContent.decidable (q : Char) (pre body : Line) :
    Decidable (QuotedContent q pre body) := by
  unfold QuotedContent
  infer_instance

/-- The first line of a function `foo`. -/
def fooLine : Line := "void foo() \x7b".toList

/-- Example 3 of the specification: two functions, each with a match. -/
def example3 : List Line :=
  ["void foo() \x7b".toList, "  int x = 1;".toList, "\x7d".toList,
   "int foo2() \x7b".toList, "  return 2;".toList, "\x7d".toList]

/-- The opening line of a class named like the pattern `foo`. -/
def classFooLine : Line := "class foo \x7b".toList

/-- The first line of a function `bar`, which has no `foo` in it. -/
def barLine : Line := "void bar() \x7b".toList

/-- A class named like the pattern `foo` that opens and closes on one line. -/
def classFooOneLine : Line := "class foo \x7b\x7d;".toList

/-- A declaration outside any function that has the pattern `foo` in it. -/
def fooDeclLine : Line := "int foo;".toList

/-- An inclusion directive that has the pattern `foo` in it. -/
def includeFooLine : Line := "#include <foo.h>".toList

/-- A line that opens a comment and does not close it, after some code. -/
def openCommentLine : Line := "  int foo; \x7b /* never closed".toList

/-- A line whose normalized text, in whichever comment state the line is read, does
not match the pattern. -/
def NoNormalizedMatch (regExp : Regex) (x : Line) : Prop :=
  ∀ ic : Bool, (commentStage ic x).2 = false →
    regex_search (stripStage (commentStage ic x).1) regExp = false

instance NoNormalizedMatch.decidable (regExp : Regex) (x : Line) :
    Decidable (NoNormalizedMatch regExp x) := by
  unfold NoNormalizedMatch
  infer_instance

/-- The pattern `x y`: an `x`, a blank and a `y`. -/
def xyExp : Regex := Regex.literal "x y".toList

/-- A function in whose raw text an empty comment stands between `x` and `y`. -/
def xyLine : Line := "x/**/y \x7b\x7d".toList

/-- The character before the position that follows the text `a`, when the character
before `a` is `prev`. -/
def prevAt (prev : Option Char) (a : Line) : Option Char :=
  a.foldl (fun _ c => some c) prev

/-- The forms that the scope classifier excludes, as shapes of the normalized line:
`using`, white space and `namespace` as whole words; `namespace`, a name and
`=`; `class`, a name and one of `;`, `,`, `>`.  A name is a letter or `_`
followed by word characters, white space may stand around it, and the text `a`
before the keyword does not end in a word character. -/
inductive ExcludedForm : Line → Prop
  | usingNamespace (a sp b : Line) (ha : wordPrev a.getLast? = false) (hsp : sp ≠ [])
      (hs : ∀ x ∈ sp, isSpaceChar x = true) (hb : wordNext b = false) :
      ExcludedForm (a ++ ("using".toList ++ (sp ++ ("namespace".toList ++ b))))
  | namespaceAlias (a sp1 r sp2 b : Line) (c : Char) (ha : wordPrev a.getLast? = false)
      (h1 : ∀ x ∈ sp1, isSpaceChar x = true) (hc : isIdentStart c = true)
      (hr : ∀ x ∈ r, isWordChar x = true) (h2 : ∀ x ∈ sp2, isSpaceChar x = true) :
      ExcludedForm (a ++ ("namespace".toList ++ (sp1 ++ (c :: (r ++ (sp2 ++ '=' :: b))))))
  | classMention (a sp1 r sp2 b : Line) (c d : Char) (ha : wordPrev a.getLast? = false)
      (h1 : ∀ x ∈ sp1, isSpaceChar x = true) (hc : isIdentStart c = true)
      (hr : ∀ x ∈ r, isWordChar x = true) (h2 : ∀ x ∈ sp2, isSpaceChar x = true)
      (hd : d = ';' ∨ d = ',' ∨ d = '>') :
      ExcludedForm (a ++ ("class".toList ++ (sp1 ++ (c :: (r ++ (sp2 ++ d :: b))))))

/-- The line has the word `namespace` or the word `class`: the text `a` before the
word does not end in a word character and the text `b` after it does not start
with one. -/
inductive HasKeyword : Line → Prop
  | namespaceWord (a b : Line) (ha : wordPrev a.getLast? = false) (hb : wordNext b = false) :
      HasKeyword (a ++ ("namespace".toList ++ b))
  | classWord (a b : Line) (ha : wordPrev a.getLast? = false) (hb : wordNext b = false) :
      HasKeyword (a ++ ("class".toList ++ b))

/-- A using-directive. -/
def usingLine : Line := "using namespace std;".toList

/-- The state of the scanner after the first line of a function `foo`. -/
def insideFoo : State :=
  { lines := [fooLine], numOpenBrackets := 1, foundLoc := 1, begLineNum := 1, endLineNum := 2,
    inMultiLineComment := false }

/-! # Theorems -/

/-! ## Equations of the loop body -/

theorem pushLine_true (st : State) (raw : Line) :
    pushLine true st raw = { st with lines := st.lines ++ [raw] } := rfl

theorem pushLine_false (st : State) (raw : Line) : pushLine false st raw = st := rfl

theorem pushLine_frame (os : Bool) (st : State) (raw : Line) :
    (pushLine os st raw).numOpenBrackets = st.numOpenBrackets ∧
    (pushLine os st raw).foundLoc = st.foundLoc ∧
    (pushLine os st raw).begLineNum = st.begLineNum ∧
    (pushLine os st raw).endLineNum = st.endLineNum ∧
    (pushLine os st raw).inMultiLineComment = st.inMultiLineComment := by
  cases os <;> exact ⟨rfl, rfl, rfl, rfl, rfl⟩

theorem body_skip (regExp : Regex) (os : Bool) (st : State) (raw : Line)
    (h : (commentStage st.inMultiLineComment raw).2 = true) :
    body regExp os st raw = .next { pushLine os st raw with inMultiLineComment := true } := by
  simp only [body, h, if_true]

theorem body_scan (regExp : Regex) (os : Bool) (st : State) (raw : Line)
    (h : (commentStage st.inMultiLineComment raw).2 = false) :
    body regExp os st raw =
      scanLine regExp os { pushLine os st raw with inMultiLineComment := false }
        (stripStage (commentStage st.inMultiLineComment raw).1) := by
  simp only [body, h, Bool.false_eq_true, if_false]

theorem scanLine_include (regExp : Regex) (os : Bool) (st : State) (s : Line)
    (h : st.foundLoc = 0 ∧ regex_search s includeExp = true) :
    scanLine regExp os st s = .next st.reset := by
  simp only [scanLine, h, and_self, if_true]

theorem scanLine_rest (regExp : Regex) (os : Bool) (st : State) (s : Line)
    (h : ¬ (st.foundLoc = 0 ∧ regex_search s includeExp = true)) :
    scanLine regExp os st s =
      closeBrackets os (s.count '}' : Int)
        (openBrackets s (scopeOpener s (recordMatch regExp s st))) := by
  simp only [scanLine, h, if_false]

/-! ## The four ways out of `closeBrackets` -/

theorem closeBrackets_none (os : Bool) (n : Int) (st : State) (h : ¬ 0 < n) :
    closeBrackets os n st = .next st := by
  simp [closeBrackets, h]

theorem closeBrackets_inner (os : Bool) (n : Int) (st : State) (h : 0 < n)
    (hd : ¬ st.numOpenBrackets - n ≤ 0) :
    closeBrackets os n st = .next { st with numOpenBrackets := st.numOpenBrackets - n } := by
  simp [closeBrackets, h, hd]

theorem closeBrackets_ret (os : Bool) (n : Int) (st : State) (h : 0 < n)
    (hd : st.numOpenBrackets - n ≤ 0) (hf : 0 < st.foundLoc) :
    closeBrackets os n st =
      .ret (st.foundLoc, st.begLineNum, st.endLineNum) (if os then emitLines st.lines else []) := by
  simp [closeBrackets, h, hd, hf]

theorem closeBrackets_reset (os : Bool) (n : Int) (st : State) (h : 0 < n)
    (hd : st.numOpenBrackets - n ≤ 0) (hf : ¬ 0 < st.foundLoc) :
    closeBrackets os n st =
      .next ({ st with numOpenBrackets := st.numOpenBrackets - n } : State).reset := by
  simp [closeBrackets, h, hd, hf]

theorem mid_reset {seen : List Line} {st : State} (h : Mid seen st) : Mid seen st.reset := by
  obtain ⟨h1, h2, h3, h4⟩ := h
  refine ⟨h1, ?_, ?_, ?_⟩ <;> simp [State.reset, h1]

theorem mid_recordMatch {seen : List Line} {st : State} (regExp : Regex) (s : Line)
    (h : Mid seen st) : Mid seen (recordMatch regExp s st) := by
  unfold FuncFinder.recordMatch
  split_ifs
  · exact h
  · exact h

theorem mid_scopeOpener {seen : List Line} {st : State} (s : Line)
    (h : Mid seen st) : Mid seen (scopeOpener s st) := by
  unfold FuncFinder.scopeOpener
  split_ifs
  · have hr : Mid seen st.reset := mid_reset h
    exact hr
  · exact h

theorem mid_openBrackets {seen : List Line} {st : State} (s : Line)
    (h : Mid seen st) : Mid seen (openBrackets s st) := h

theorem closeBrackets_mid (n : Int) (st : State) (seen : List Line) (h : Mid seen st) :
    (∀ st', closeBrackets true n st = .next st' → Mid seen st') ∧
    (∀ r out, closeBrackets true n st = .ret r out →
      r.2.2 = seen.length ∧ 1 ≤ r.2.1 ∧ r.2.1 ≤ r.2.2 + 1 ∧
        out = emitLines (seen.drop (r.2.1 - 1))) := by
  by_cases hn : 0 < n
  · by_cases hd : st.numOpenBrackets - n ≤ 0
    · by_cases hf : 0 < st.foundLoc
      · rw [closeBrackets_ret true n st hn hd hf]
        refine ⟨fun st' hst => by simp at hst, fun r out hst => ?_⟩
        simp only [Step.ret.injEq] at hst
        obtain ⟨rfl, rfl⟩ := hst
        obtain ⟨h1, h2, h3, h4⟩ := h
        exact ⟨h1, h2, h3, by simp [h4]⟩
      · rw [closeBrackets_reset true n st hn hd hf]
        refine ⟨fun st' hst => ?_, fun r out hst => by simp at hst⟩
        simp only [Step.next.injEq] at hst
        subst hst
        exact @mid_reset seen { st with numOpenBrackets := st.numOpenBrackets - n } h
    · rw [closeBrackets_inner true n st hn hd]
      refine ⟨fun st' hst => ?_, fun r out hst => by simp at hst⟩
      simp only [Step.next.injEq] at hst
      subst hst
      exact h
  · rw [closeBrackets_none true n st hn]
    refine ⟨fun st' hst => ?_, fun r out hst => by simp at hst⟩
    simp only [Step.next.injEq] at hst
    subst hst
    exact h

theorem scanLine_mid (regExp : Regex) (st : State) (s : Line) (seen : List Line)
    (h : Mid seen st) :
    (∀ st', scanLine regExp true st s = .next st' → Mid seen st') ∧
    (∀ r out, scanLine regExp true st s = .ret r out →
      r.2.2 = seen.length ∧ 1 ≤ r.2.1 ∧ r.2.1 ≤ r.2.2 + 1 ∧
        out = emitLines (seen.drop (r.2.1 - 1))) := by
  unfold scanLine
  split_ifs with hinc
  · refine ⟨fun st' hst => ?_, fun r out hst => by simp at hst⟩
    simp only [Step.next.injEq] at hst
    subst hst
    exact mid_reset h
  · exact closeBrackets_mid _ _ seen
      (mid_openBrackets s (mid_scopeOpener s (mid_recordMatch regExp s h)))

theorem body_mid (regExp : Regex) (st : State) (raw : Line) (seen : List Line)
    (hend : st.endLineNum = seen.length + 1) (hb1 : 1 ≤ st.begLineNum)
    (hb2 : st.begLineNum ≤ st.endLineNum) (hl : st.lines = seen.drop (st.begLineNum - 1)) :
    (∀ st', body regExp true st raw = .next st' → Mid (seen ++ [raw]) st') ∧
    (∀ r out, body regExp true st raw = .ret r out →
      r.2.2 = seen.length + 1 ∧ 1 ≤ r.2.1 ∧ r.2.1 ≤ r.2.2 + 1 ∧
        out = emitLines ((seen ++ [raw]).drop (r.2.1 - 1))) := by
  have hmid : ∀ b : Bool, Mid (seen ++ [raw])
      { pushLine true st raw with inMultiLineComment := b } := by
    intro b
    refine ⟨by simp [pushLine_true, hend], hb1, by simp [pushLine_true]; omega, ?_⟩
    simp only [pushLine_true, hl]
    rw [List.drop_append_of_le_length (by omega)]
  by_cases hc : (commentStage st.inMultiLineComment raw).2 = true
  · rw [body_skip regExp true st raw hc]
    refine ⟨fun st' hst => ?_, fun r out hst => by simp at hst⟩
    simp only [Step.next.injEq] at hst
    subst hst
    exact hmid true
  · rw [body_scan regExp true st raw (by simpa using hc)]
    have := scanLine_mid regExp _ (stripStage (commentStage st.inMultiLineComment raw).1) _
      (hmid false)
    simpa using this

theorem loop_nil (regExp : Regex) (os : Bool) (st : State) :
    loop regExp os st [] =
      { result := (notFound, st.begLineNum, st.endLineNum), os := [], is := [] } := rfl

theorem loop_cons_next (regExp : Regex) (os : Bool) (st st' : State) (raw : Line)
    (rest : List Line) (h : body regExp os st raw = .next st') :
    loop regExp os st (raw :: rest) =
      loop regExp os { st' with endLineNum := st'.endLineNum + 1 } rest := by
  rw [loop, h]

theorem loop_cons_ret (regExp : Regex) (os : Bool) (st : State) (raw : Line)
    (rest : List Line) (r : Nat × Nat × Nat) (out : Text) (h : body regExp os st raw = .ret r out) :
    loop regExp os st (raw :: rest) = { result := r, os := out, is := rest } := by
  rw [loop, h]

theorem loop_emits (regExp : Regex) (rest : List Line) :
    ∀ (seen : List Line) (st : State) (o : Outcome), st.endLineNum = seen.length + 1 →
      1 ≤ st.begLineNum → st.begLineNum ≤ st.endLineNum →
      st.lines = seen.drop (st.begLineNum - 1) →
      loop regExp true st rest = o → o.result.1 ≠ notFound →
      seen.length < o.result.2.2 ∧ o.result.2.2 ≤ (seen ++ rest).length ∧
      1 ≤ o.result.2.1 ∧ o.result.2.1 ≤ o.result.2.2 + 1 ∧
      o.os = emitLines (linesRange (seen ++ rest) o.result.2.1 o.result.2.2) ∧
      o.is = (seen ++ rest).drop o.result.2.2 := by
  induction rest with
  | nil =>
    intro seen st o _ _ _ _ ho hs
    rw [loop_nil] at ho
    subst ho
    exact absurd rfl hs
  | cons raw rest ih =>
    intro seen st o hend hb1 hb2 hl ho hs
    obtain ⟨hnext, hret⟩ := body_mid regExp st raw seen hend hb1 hb2 hl
    cases hb : body regExp true st raw with
    | next st' =>
      rw [loop_cons_next _ _ _ _ _ _ hb] at ho
      obtain ⟨m1, m2, m3, m4⟩ := hnext st' hb
      have := ih (seen ++ [raw]) { st' with endLineNum := st'.endLineNum + 1 } o
        (by simp [m1]) m2 (by simpa using m3) m4 ho hs
      simp only [List.length_append, List.length_singleton, List.append_assoc,
        List.singleton_append] at this
      obtain ⟨t1, t2, t3, t4, t5, t6⟩ := this
      exact ⟨by omega, by simpa using t2, t3, t4, t5, t6⟩
    | ret r out =>
      rw [loop_cons_ret _ _ _ _ _ _ _ hb] at ho
      subst ho
      obtain ⟨r1, r2, r3, r4⟩ := hret r out hb
      have htake : List.take (seen.length + 1) (seen ++ raw :: rest) = seen ++ [raw] := by
        rw [show seen ++ raw :: rest = (seen ++ [raw]) ++ rest by simp]
        rw [List.take_append_of_le_length (by simp), List.take_of_length_le (by simp)]
      have hdrop : List.drop (seen.length + 1) (seen ++ raw :: rest) = rest := by
        rw [show seen ++ raw :: rest = (seen ++ [raw]) ++ rest by simp]
        rw [List.drop_append_of_le_length (by simp), List.drop_of_length_le (by simp)]
        simp
      refine ⟨by simp only; omega, by simp [r1], r2, r3, ?_, ?_⟩
      · simp only [r4, linesRange, r1, htake]
      · simp only [r1, hdrop]

/-- C1. A call of `findFunction` with an output stream that returns success
`(m, b, e)` has written exactly the raw lines `b` to `e` of the stream it was
given, in order and each followed by a line feed (nothing when `b = e + 1`), and
has read exactly `e` lines of that stream. -/
theorem findFunction_emits_block (is : List Line) (regExp : Regex) (m b e : Nat)
    (hr : (findFunction is regExp true).result = (m, b, e)) (hm : m ≠ notFound) :
    (findFunction is regExp true).os = emitLines (linesRange is b e) ∧
    (b = e + 1 → (findFunction is regExp true).os = []) ∧
    (findFunction is regExp true).is = is.drop e ∧
    1 ≤ e ∧ e ≤ is.length ∧ 1 ≤ b ∧ b ≤ e + 1 := by
  have := loop_emits regExp is [] State.init (findFunction is regExp true) rfl (by decide)
    (by decide) rfl rfl (by rw [hr]; exact hm)
  simp only [List.nil_append, List.length_nil, hr] at this
  obtain ⟨t1, t2, t3, t4, t5, t6⟩ := this
  refine ⟨t5, ?_, t6, t1, t2, t3, t4⟩
  intro hbe
  rw [t5, hbe, linesRange, Nat.add_sub_cancel,
    List.drop_of_length_le (List.length_take_le e is)]
  rfl

theorem findFunction_emits_block_witness :
    (findFunction example1 fooExp true).os = emitLines (linesRange example1 1 3) ∧
    (1 = 3 + 1 → (findFunction example1 fooExp true).os = []) ∧
    (findFunction example1 fooExp true).is = example1.drop 3 ∧
    1 ≤ 3 ∧ 3 ≤ example1.length ∧ 1 ≤ 1 ∧ 1 ≤ 3 + 1 :=
  findFunction_emits_block example1 fooExp 1 1 3 (by decide) (by decide)

/-! ## Expressions that do not match -/

theorem occursIn_suffix (w : Line) : ∀ (s t : Line), occursIn w s = false → t <:+ s →
    w.isPrefixOf t = false := by
  intro s
  induction s with
  | nil =>
    intro t h ht
    rw [List.suffix_nil] at ht
    subst ht
    simpa [occursIn] using h
  | cons c rest ih =>
    intro t h ht
    simp only [occursIn, Bool.or_eq_false_iff] at h
    rcases List.suffix_cons_iff.mp ht with rfl | ht'
    · exact h.1
    · exact ih t h.2 ht'

theorem replaceFrom_noMatch (re : Regex) (fmt : Text) : ∀ (s : Line) (prev : Option Char),
    (∀ (p : Option Char) (t : Line), t <:+ s → re.matchAt p t = none) →
    replaceFrom re fmt 0 prev s = s := by
  intro s
  induction s with
  | nil => intro prev _; rfl
  | cons c rest ih =>
    intro prev h
    rw [replaceFrom, h prev (c :: rest) (List.suffix_refl _)]
    simp only
    rw [ih (some c) (fun p t ht => h p t (ht.trans (List.suffix_cons c rest)))]

theorem regex_replace_noMatch (re : Regex) (fmt : Text) (s : Line)
    (h : ∀ (p : Option Char) (t : Line), t <:+ s → re.matchAt p t = none) :
    regex_replace s re fmt = s :=
  replaceFrom_noMatch re fmt s none h

theorem searchFrom_noMatch (re : Regex) : ∀ (s : Line) (prev : Option Char),
    (∀ (p : Option Char) (t : Line), t <:+ s → (p = none → t = s ∧ p = prev) →
      re.matchAt p t = none) →
    searchFrom re prev s = false := by
  intro s
  induction s with
  | nil =>
    intro prev h
    simp [searchFrom, h prev [] (List.suffix_refl _) (fun _ => ⟨rfl, rfl⟩)]
  | cons c rest ih =>
    intro prev h
    rw [searchFrom, h prev (c :: rest) (List.suffix_refl _) (fun _ => ⟨rfl, rfl⟩)]
    simp only [Option.isSome_none, Bool.false_or]
    refine ih (some c) (fun p t ht hp => h p t (ht.trans (List.suffix_cons c rest))
      (fun hn => ?_))
    have := (hp hn).2
    rw [hn] at this
    exact absurd this (Option.noConfusion)

theorem spanComment_noMatch (s : Line) (h : occursIn ['/', '*'] s = false) :
    regex_replace s spanCommentExp [' '] = s := by
  apply regex_replace_noMatch
  intro p t ht
  simp only [spanCommentExp, occursIn_suffix _ s t h ht, Bool.false_eq_true, if_false]

theorem lineComment_noMatch (s : Line) (h : occursIn ['/', '/'] s = false) :
    regex_replace s lineCommentExp [] = s := by
  apply regex_replace_noMatch
  intro p t ht
  simp only [lineCommentExp, occursIn_suffix _ s t h ht, Bool.false_eq_true, if_false]

theorem quotedStr_noMatch (s : Line) (h1 : '"' ∉ s) (h2 : '\'' ∉ s) :
    regex_replace s quotedStrExp [] = s := by
  apply regex_replace_noMatch
  intro p t ht
  cases t with
  | nil => rfl
  | cons c r =>
    have hc : c ∈ s := ht.subset (List.mem_cons_self c r)
    have hc1 : c ≠ '"' := fun e => h1 (e ▸ hc)
    have hc2 : c ≠ '\'' := fun e => h2 (e ▸ hc)
    simp [quotedStrExp, hc1, hc2]

theorem begGroupAt_none : ∀ (s : Line), occursIn ['/', '*'] s = false → begGroupAt s = none := by
  intro s
  induction s with
  | nil => intro _; rfl
  | cons c rest ih =>
    intro h
    simp only [occursIn, Bool.or_eq_false_iff] at h
    rw [begGroupAt, if_neg (by rw [h.1]; exact Bool.false_ne_true), ih h.2]
    split_ifs <;> rfl

theorem searchGroup_beg_none : ∀ (s : Line), occursIn ['/', '*'] s = false →
    searchGroup begMultiLineCommentExp s = none := by
  intro s
  induction s with
  | nil => intro _; rfl
  | cons c rest ih =>
    intro h
    have h' := h
    simp only [occursIn, Bool.or_eq_false_iff] at h'
    rw [searchGroup]
    simp only [begMultiLineCommentExp, begGroupAt_none _ h]
    exact ih h'.2

theorem include_noMatch (s : Line) (h : '#' ∉ s) : regex_search s includeExp = false := by
  apply searchFrom_noMatch
  intro p t ht hp
  cases p with
  | some c => rfl
  | none =>
    obtain ⟨rfl, -⟩ := hp rfl
    simp only [includeExp]
    rw [if_neg]
    intro hpre
    simp only [Bool.and_eq_true] at hpre
    have h1 := hpre.1
    cases hd : List.dropWhile isSpaceChar t with
    | nil => rw [hd] at h1; simp [List.isPrefixOf] at h1
    | cons d r =>
      rw [hd] at h1
      have hd' : d = '#' := by
        simp [List.isPrefixOf] at h1
        exact h1.1.symm
      have : d ∈ t := (List.dropWhile_suffix isSpaceChar).subset (hd ▸ List.mem_cons_self d r)
      exact h (hd' ▸ this)

theorem commentStage_plain (l : Line) (h : Plain l) : commentStage false l = (l, false) := by
  simp only [commentStage, spanComment_noMatch l h.1, searchGroup_beg_none l h.1,
    Bool.not_false, if_true]

theorem stripStage_plain (l : Line) (h : Plain l) : stripStage l = l := by
  simp only [stripStage, lineComment_noMatch l h.2.1, quotedStr_noMatch l h.2.2.1 h.2.2.2.1]

/-! ## Blocks of plain lines -/

theorem State.eta_comment (st : State) (h : st.inMultiLineComment = false) :
    { st with inMultiLineComment := false } = st := by
  cases st
  simp only at h
  subst h
  rfl

theorem body_plain (regExp : Regex) (os : Bool) (st : State) (x : Line) (hx : Plain x)
    (hc : st.inMultiLineComment = false) :
    body regExp os st x =
      closeBrackets os (x.count '}' : Int)
        (openBrackets x (recordMatch regExp x (pushLine os st x))) := by
  have hc' : (pushLine os st x).inMultiLineComment = false :=
    (pushLine_frame os st x).2.2.2.2.trans hc
  have hcs : (commentStage st.inMultiLineComment x).2 = false := by
    rw [hc, commentStage_plain x hx]
  rw [body_scan regExp os st x hcs, hc, commentStage_plain x hx, stripStage_plain x hx,
    State.eta_comment _ hc', scanLine_rest _ _ _ _ (by simp [include_noMatch x hx.2.2.2.2.1])]
  congr 2
  unfold scopeOpener
  rw [if_neg (by simp [hx.2.2.2.2.2])]

theorem plain_pre (regExp : Regex) (os : Bool) (st : State) (x : Line) :
    openBrackets x (recordMatch regExp x (pushLine os st x)) =
      { lines := if os then st.lines ++ [x] else st.lines
        numOpenBrackets := st.numOpenBrackets + (x.count '{' : Int)
        foundLoc := if regex_search x regExp = true then st.endLineNum else st.foundLoc
        begLineNum := st.begLineNum
        endLineNum := st.endLineNum
        inMultiLineComment := st.inMultiLineComment } := by
  by_cases hm : regex_search x regExp = true <;> cases os <;>
    simp [openBrackets, recordMatch, pushLine, hm]

theorem body_plain_open (regExp : Regex) (os : Bool) (st : State) (x : Line) (hx : Plain x)
    (hc : st.inMultiLineComment = false)
    (hn : ¬ (0 < x.count '}' ∧ st.numOpenBrackets + braceDelta x ≤ 0)) :
    body regExp os st x =
      .next { plainStep regExp os st x with endLineNum := st.endLineNum } := by
  rw [body_plain regExp os st x hx hc, plain_pre]
  by_cases h0 : (0 : Int) < (x.count '}' : Int)
  · have hd : ¬ st.numOpenBrackets + braceDelta x ≤ 0 := fun h => hn ⟨by exact_mod_cast h0, h⟩
    rw [closeBrackets_inner _ _ _ h0 (by unfold braceDelta at hd; simp only; omega)]
    simp only [plainStep, braceDelta, hc, Step.next.injEq, State.mk.injEq, and_true, true_and]
    omega
  · rw [closeBrackets_none _ _ _ h0]
    have h0' : (x.count '}' : Int) = 0 := by omega
    simp only [plainStep, braceDelta, hc, h0', Step.next.injEq, State.mk.injEq, and_true,
      true_and]
    omega

theorem plainStep_eta (regExp : Regex) (os : Bool) (st : State) (x : Line) :
    ({ ({ plainStep regExp os st x with endLineNum := st.endLineNum } : State) with
      endLineNum := st.endLineNum + 1 } : State) = plainStep regExp os st x := rfl

theorem loop_plain_open (regExp : Regex) (os : Bool) (rest : List Line) :
    ∀ (p : List Line) (st : State), (∀ x ∈ p, Plain x) → st.inMultiLineComment = false →
      noClose st.numOpenBrackets p →
      loop regExp os st (p ++ rest) = loop regExp os (afterPlain regExp os st p) rest := by
  intro p
  induction p with
  | nil => intro st _ _ _; rfl
  | cons x p ih =>
    intro st hp hc hn
    have hx : Plain x := hp x (List.mem_cons_self x p)
    rw [List.cons_append, loop_cons_next _ _ _ _ _ _ (body_plain_open regExp os st x hx hc hn.1),
      plainStep_eta]
    exact ih (plainStep regExp os st x) (fun y hy => hp y (List.mem_cons_of_mem x hy)) rfl hn.2

theorem afterPlain_frame (regExp : Regex) (os : Bool) : ∀ (p : List Line) (st : State),
    (afterPlain regExp os st p).lines = (if os then st.lines ++ p else st.lines) ∧
    (afterPlain regExp os st p).numOpenBrackets = st.numOpenBrackets + depthOver p ∧
    (afterPlain regExp os st p).begLineNum = st.begLineNum ∧
    (afterPlain regExp os st p).endLineNum = st.endLineNum + p.length ∧
    (p ≠ [] → (afterPlain regExp os st p).inMultiLineComment = false) := by
  intro p
  induction p with
  | nil => intro st; cases os <;> simp [afterPlain, depthOver]
  | cons x p ih =>
    intro st
    obtain ⟨h1, h2, h3, h4, h5⟩ := ih (plainStep regExp os st x)
    have hfold : afterPlain regExp os st (x :: p) =
        afterPlain regExp os (plainStep regExp os st x) p := rfl
    rw [hfold]
    refine ⟨?_, ?_, ?_, ?_, ?_⟩
    · rw [h1]; cases os <;> simp [plainStep]
    · rw [h2]; simp [plainStep, depthOver]; omega
    · rw [h3]; rfl
    · rw [h4]; simp [plainStep]; omega
    · intro _
      cases p with
      | nil => rfl
      | cons y p => exact h5 (by simp)

theorem afterPlain_foundLoc_none (regExp : Regex) (os : Bool) : ∀ (q : List Line) (st : State),
    (∀ x ∈ q, regex_search x regExp = false) →
    (afterPlain regExp os st q).foundLoc = st.foundLoc := by
  intro q
  induction q with
  | nil => intro st _; rfl
  | cons x q ih =>
    intro st h
    have hfold : afterPlain regExp os st (x :: q) =
        afterPlain regExp os (plainStep regExp os st x) q := rfl
    rw [hfold, ih _ (fun y hy => h y (List.mem_cons_of_mem x hy))]
    simp [plainStep, h x (List.mem_cons_self x q)]

theorem afterPlain_append (regExp : Regex) (os : Bool) (st : State) (a b : List Line) :
    afterPlain regExp os st (a ++ b) = afterPlain regExp os (afterPlain regExp os st a) b := by
  simp [afterPlain, List.foldl_append]

theorem afterPlain_foundLoc (regExp : Regex) (os : Bool) (st : State) (a q : List Line)
    (l : Line) (hl : regex_search l regExp = true)
    (hq : ∀ x ∈ q, regex_search x regExp = false) :
    (afterPlain regExp os st (a ++ l :: q)).foundLoc = st.endLineNum + a.length := by
  rw [afterPlain_append]
  have hfold : afterPlain regExp os (afterPlain regExp os st a) (l :: q) =
      afterPlain regExp os (plainStep regExp os (afterPlain regExp os st a) l) q := rfl
  rw [hfold, afterPlain_foundLoc_none regExp os q _ hq]
  simp [plainStep, hl, (afterPlain_frame regExp os a st).2.2.2.1]

theorem body_plain_close (regExp : Regex) (os : Bool) (st : State) (x : Line) (hx : Plain x)
    (hc : st.inMultiLineComment = false)
    (hcl : 0 < x.count '}' ∧ st.numOpenBrackets + braceDelta x ≤ 0)
    (hf : 0 < (plainStep regExp os st x).foundLoc) :
    body regExp os st x =
      .ret ((plainStep regExp os st x).foundLoc, st.begLineNum, st.endLineNum)
        (if os then emitLines (st.lines ++ [x]) else []) := by
  rw [body_plain regExp os st x hx hc, plain_pre]
  have h0 : (0 : Int) < (x.count '}' : Int) := by exact_mod_cast hcl.1
  have hd := hcl.2
  unfold braceDelta at hd
  rw [closeBrackets_ret _ _ _ h0 (by simp only; omega) (by simpa [plainStep] using hf)]
  cases os <;> simp [plainStep]

/-- A block of plain lines read from depth 0 outside a comment: the call returns at
its last line, provided a match is on record by then. -/
theorem loop_plain_block (regExp : Regex) (os : Bool) (st : State) (p rest : List Line)
    (last : Line) (hp : ∀ x ∈ p ++ [last], Plain x) (hc : st.inMultiLineComment = false)
    (hn : noClose st.numOpenBrackets p)
    (hcl : 0 < last.count '}' ∧ st.numOpenBrackets + depthOver (p ++ [last]) ≤ 0)
    (hf : 0 < (afterPlain regExp os st (p ++ [last])).foundLoc) :
    loop regExp os st ((p ++ [last]) ++ rest) =
      { result := ((afterPlain regExp os st (p ++ [last])).foundLoc, st.begLineNum,
          st.endLineNum + p.length)
        os := if os then emitLines (st.lines ++ (p ++ [last])) else []
        is := rest } := by
  obtain ⟨f1, f2, f3, f4, f5⟩ := afterPlain_frame regExp os p st
  have hc' : (afterPlain regExp os st p).inMultiLineComment = false := by
    cases p with
    | nil => exact hc
    | cons y p => exact f5 (by simp)
  have hfold : afterPlain regExp os st (p ++ [last]) =
      plainStep regExp os (afterPlain regExp os st p) last := by
    rw [afterPlain_append]; rfl
  rw [List.append_assoc, loop_plain_open regExp os _ p st
    (fun x hx => hp x (List.mem_append_left _ hx)) hc hn, List.singleton_append,
    loop_cons_ret _ _ _ _ _ _ _ (body_plain_close regExp os _ last
      (hp last (by simp)) hc' ⟨hcl.1, by
        rw [f2]
        have := hcl.2
        simp only [depthOver, List.map_append, List.sum_append, List.map_cons, List.map_nil,
          List.sum_cons, List.sum_nil] at this ⊢
        omega⟩ (hfold ▸ hf))]
  rw [hfold, f3, f4, f1]
  cases os <;> simp

theorem noClose_of_index : ∀ (p : List Line) (d : Int),
    (∀ i, i < p.length →
      ¬ (0 < (p.getD i []).count '}' ∧ d + depthOver (p.take (i + 1)) ≤ 0)) →
    noClose d p := by
  intro p
  induction p with
  | nil => intro d _; trivial
  | cons x p ih =>
    intro d h
    refine ⟨?_, ih _ (fun i hi => ?_)⟩
    · have := h 0 (by simp)
      simpa [depthOver] using this
    · have := h (i + 1) (by simpa using hi)
      simpa [depthOver, add_assoc] using this

theorem closesOnlyAtEnd_split (p : List Line) (last : Line)
    (h : ClosesOnlyAtEnd (p ++ [last])) :
    noClose 0 p ∧ 0 < last.count '}' ∧ depthOver (p ++ [last]) ≤ 0 := by
  constructor
  · apply noClose_of_index
    intro i hi hcl
    have hlt : i < (p ++ [last]).length := by simp; omega
    have := (h i hlt).mp (by
      unfold ClosesAt
      rw [List.getD_append _ _ _ _ hi, List.take_append_of_le_length (by omega)]
      simpa using hcl)
    simp at this
    omega
  · have := (h p.length (by simp)).mpr (by simp)
    unfold ClosesAt at this
    rw [List.getD_append_right _ _ _ _ (le_refl _),
      List.take_of_length_le (by simp)] at this
    simpa using this

/-- A block of plain lines read from depth 0 outside a comment, with the last line
that matches the pattern singled out. -/
theorem loop_plain_found (regExp : Regex) (os : Bool) (st : State) (a q rest : List Line)
    (l : Line) (hplain : ∀ x ∈ a ++ l :: q, Plain x) (hc : st.inMultiLineComment = false)
    (hd : st.numOpenBrackets = 0) (hend : 0 < st.endLineNum)
    (hclose : ClosesOnlyAtEnd (a ++ l :: q))
    (hl : regex_search l regExp = true) (hq : ∀ x ∈ q, regex_search x regExp = false) :
    loop regExp os st ((a ++ l :: q) ++ rest) =
      { result := (st.endLineNum + a.length, st.begLineNum,
          st.endLineNum + (a ++ l :: q).length - 1)
        os := if os then emitLines (st.lines ++ (a ++ l :: q)) else []
        is := rest } := by
  have hne : a ++ l :: q ≠ [] := by simp
  obtain ⟨p, last, hF⟩ : ∃ p last, a ++ l :: q = p ++ [last] :=
    ⟨(a ++ l :: q).dropLast, (a ++ l :: q).getLast hne,
      (List.dropLast_append_getLast hne).symm⟩
  have hfound := afterPlain_foundLoc regExp os st a q l hl hq
  rw [hF] at hplain hclose hfound ⊢
  obtain ⟨h1, h2, h3⟩ := closesOnlyAtEnd_split p last hclose
  rw [loop_plain_block regExp os st p rest last hplain hc (hd ▸ h1)
    ⟨h2, by rw [hd]; simpa using h3⟩ (by rw [hfound]; omega), hfound]
  simp

/-- C2. For a stream that starts with plain lines (no comment opener, no `//`, no
quote character, no `#`, neither of the words namespace and class) of which the
last is the first boundary close (a line with a `}` at which the running count of
`{` less `}` is at most 0), and among which `l` is the last line that matches the
pattern: `findFunction` returns the line number of `l`, block start 1 and the
number of that boundary close as the last line read, emits these lines, and
leaves the rest of the stream unread. -/
theorem findFunction_plain_block (regExp : Regex) (os : Bool) (a q rest : List Line)
    (l : Line) (hplain : ∀ x ∈ a ++ l :: q, Plain x) (hclose : ClosesOnlyAtEnd (a ++ l :: q))
    (hl : regex_search l regExp = true) (hq : ∀ x ∈ q, regex_search x regExp = false) :
    findFunction ((a ++ l :: q) ++ rest) regExp os =
      { result := (a.length + 1, 1, (a ++ l :: q).length)
        os := if os then emitLines (a ++ l :: q) else []
        is := rest } := by
  unfold findFunction
  rw [loop_plain_found regExp os State.init a q rest l hplain rfl rfl (by decide) hclose hl hq]
  simp [State.init]
  omega

theorem findFunction_plain_block_witness :
    findFunction example1 fooExp true =
      { result := (1, 1, 3), os := emitLines example1, is := [] } :=
  findFunction_plain_block fooExp true [] example1Tail [] "void foo() \x7b".toList
    (by decide) (by decide) (by decide) (by decide)

/-! ## A function inside a namespace or class -/

theorem body_opener (regExp : Regex) (os : Bool) (st : State) (opener : Line)
    (hop : OpensOneScope opener) (hc : st.inMultiLineComment = false) :
    body regExp os st opener =
      .next { lines := []
              numOpenBrackets := 0
              foundLoc :=
                if regex_search (stripStage (commentStage false opener).1) regExp = true
                then st.endLineNum else st.foundLoc
              begLineNum := st.endLineNum + 1
              endLineNum := st.endLineNum
              inMultiLineComment := false } := by
  obtain ⟨h1, h2, h3, h4, h5, h6, h7⟩ := hop
  rw [body_scan regExp os st opener (by rw [hc]; exact h1), hc,
    scanLine_rest _ _ _ _ (by simp [h2]), h7, closeBrackets_none _ _ _ (by simp)]
  by_cases hm : regex_search (stripStage (commentStage false opener).1) regExp = true <;>
    cases os <;>
    simp [openBrackets, scopeOpener, h3, h4, h5, h6, State.reset, recordMatch, pushLine, hm]

theorem findFunction_closingBrace (regExp : Regex) (os : Bool)
    (h : regex_search closingBrace regExp = false) :
    findFunction [closingBrace] regExp os = { result := (notFound, 2, 2), os := [], is := [] } := by
  unfold findFunction
  have hb : body regExp os State.init closingBrace =
      .next { lines := [], numOpenBrackets := 0, foundLoc := 0, begLineNum := 2, endLineNum := 1,
              inMultiLineComment := false } := by
    rw [body_plain regExp os State.init closingBrace (by decide) rfl, plain_pre, h,
      closeBrackets_reset _ _ _ (by decide) (by simp only; decide) (by simp only; decide)]
    rfl
  rw [loop_cons_next _ _ _ _ _ _ hb, loop_nil]

/-- C4, as amended. For a stream made of a line that opens one scope, a block `F` of
plain lines whose only boundary close is its last line and in which `l` is the
last line that matches the pattern, and the closing `}` of the scope, and for a
pattern that does not match the line `}`: the first call returns the line number
of `l`, block start 2 and last line `1 + |F|`, and emits exactly `F`; the second
call, on what is left of the stream, returns the not-found value and emits
nothing. -/
theorem findFunction_in_scope (regExp : Regex) (opener : Line) (a q : List Line) (l : Line)
    (hop : OpensOneScope opener) (hplain : ∀ x ∈ a ++ l :: q, Plain x)
    (hclose : ClosesOnlyAtEnd (a ++ l :: q))
    (hl : regex_search l regExp = true) (hq : ∀ x ∈ q, regex_search x regExp = false)
    (hbrace : regex_search closingBrace regExp = false) :
    findFunction (opener :: ((a ++ l :: q) ++ [closingBrace])) regExp true =
      { result := (1 + (a.length + 1), 2, 1 + (a ++ l :: q).length)
        os := emitLines (a ++ l :: q)
        is := [closingBrace] } ∧
    (findFunction (findFunction (opener :: ((a ++ l :: q) ++ [closingBrace])) regExp true).is
      regExp true).result.1 = notFound ∧
    (findFunction (findFunction (opener :: ((a ++ l :: q) ++ [closingBrace])) regExp true).is
      regExp true).os = [] := by
  have h1 : findFunction (opener :: ((a ++ l :: q) ++ [closingBrace])) regExp true =
      { result := (1 + (a.length + 1), 2, 1 + (a ++ l :: q).length)
        os := emitLines (a ++ l :: q)
        is := [closingBrace] } := by
    unfold findFunction
    rw [loop_cons_next _ _ _ _ _ _ (body_opener regExp true State.init opener hop rfl),
      loop_plain_found regExp true _ a q [closingBrace] l hplain rfl rfl (by simp [State.init])
        hclose hl hq]
    simp [State.init]
    omega
  rw [h1]
  simp only [findFunction_closingBrace regExp true hbrace, and_self]

theorem findFunction_in_scope_witness :
    findFunction (scopeOpenerLine :: (([] ++ "void foo() \x7b".toList :: example1Tail) ++
        [closingBrace])) fooExp true =
      { result := (2, 2, 4), os := emitLines example1, is := [closingBrace] } ∧
    (findFunction (findFunction (scopeOpenerLine ::
        (([] ++ "void foo() \x7b".toList :: example1Tail) ++ [closingBrace])) fooExp true).is
      fooExp true).result.1 = notFound ∧
    (findFunction (findFunction (scopeOpenerLine ::
        (([] ++ "void foo() \x7b".toList :: example1Tail) ++ [closingBrace])) fooExp true).is
      fooExp true).os = [] :=
  findFunction_in_scope fooExp scopeOpenerLine [] example1Tail "void foo() \x7b".toList
    (by decide) (by decide) (by decide) (by decide) (by decide) (by decide)

/-- C4 as stated fails: the pattern `\}` matches the closing line of the function
`F` and the closing `}` of the namespace alike.  The stream and the pattern
satisfy what the claim asks for, the first call returns what the claim says, and
the second call returns success `(1, 1, 1)` and emits the closing line. -/
theorem findFunction_in_scope_counterexample :
    OpensOneScope scopeOpenerLine ∧
    (∀ x ∈ [scopeFunctionLine] ++ closingBrace :: [], Plain x) ∧
    ClosesOnlyAtEnd ([scopeFunctionLine] ++ closingBrace :: []) ∧
    regex_search closingBrace braceExp = true ∧
    findFunction (scopeOpenerLine :: (([scopeFunctionLine] ++ closingBrace :: []) ++
        [closingBrace])) braceExp true =
      { result := (3, 2, 3), os := emitLines [scopeFunctionLine, closingBrace],
        is := [closingBrace] } ∧
    findFunction [closingBrace] braceExp true =
      { result := (1, 1, 1), os := emitLines [closingBrace], is := [] } ∧
    (findFunction [closingBrace] braceExp true).result.1 ≠ notFound := by
  decide

/-! ## The driver loop -/

theorem findFunction_success (is : List Line) (regExp : Regex)
    (h : (findFunction is regExp true).result.1 ≠ notFound) :
    (findFunction is regExp true).os =
      emitLines (linesRange is (findFunction is regExp true).result.2.1
        (findFunction is regExp true).result.2.2) ∧
    (findFunction is regExp true).is = is.drop (findFunction is regExp true).result.2.2 ∧
    1 ≤ (findFunction is regExp true).result.2.2 ∧
    (findFunction is regExp true).result.2.2 ≤ is.length ∧
    1 ≤ (findFunction is regExp true).result.2.1 ∧
    (findFunction is regExp true).result.2.1 ≤ (findFunction is regExp true).result.2.2 + 1 := by
  have := loop_emits regExp is [] State.init (findFunction is regExp true) rfl (by decide)
    (by decide) rfl rfl h
  simp only [List.nil_append, List.length_nil] at this
  obtain ⟨t1, t2, t3, t4, t5, t6⟩ := this
  exact ⟨t5, t6, t1, t2, t3, t4⟩

theorem driverLoop_notFound (grepExp : Regex) (fileName : String) (fuel total : Nat)
    (ifs : List Line) (h : (findFunction ifs grepExp true).result.1 = notFound) :
    driverLoop grepExp fileName (fuel + 1) total ifs = some { cout := [], calls := 1 } := by
  simp [driverLoop, h]

theorem driverLoop_found (grepExp : Regex) (fileName : String) (fuel total : Nat)
    (ifs : List Line) (h : (findFunction ifs grepExp true).result.1 ≠ notFound) (rep : Report)
    (hrep : driverLoop grepExp fileName fuel
      (total + (findFunction ifs grepExp true).result.2.2) (findFunction ifs grepExp true).is
        = some rep) :
    driverLoop grepExp fileName (fuel + 1) total ifs =
      some { cout := { fileName := fileName
                       matchLine := total + (findFunction ifs grepExp true).result.1
                       startLine := total + (findFunction ifs grepExp true).result.2.1
                       endLine := total + (findFunction ifs grepExp true).result.2.2
                       text := (findFunction ifs grepExp true).os } :: rep.cout
             calls := rep.calls + 1 } := by
  simp [driverLoop, h, hrep]

theorem driverLoop_found_inv (grepExp : Regex) (fileName : String) (fuel total : Nat)
    (ifs : List Line) (h : (findFunction ifs grepExp true).result.1 ≠ notFound) (rep : Report)
    (hrep : driverLoop grepExp fileName (fuel + 1) total ifs = some rep) :
    ∃ rep', driverLoop grepExp fileName fuel
      (total + (findFunction ifs grepExp true).result.2.2) (findFunction ifs grepExp true).is
        = some rep' ∧
      rep = { cout := { fileName := fileName
                        matchLine := total + (findFunction ifs grepExp true).result.1
                        startLine := total + (findFunction ifs grepExp true).result.2.1
                        endLine := total + (findFunction ifs grepExp true).result.2.2
                        text := (findFunction ifs grepExp true).os } :: rep'.cout
              calls := rep'.calls + 1 } := by
  cases hd : driverLoop grepExp fileName fuel
      (total + (findFunction ifs grepExp true).result.2.2) (findFunction ifs grepExp true).is with
  | none => simp [driverLoop, h, hd] at hrep
  | some rep' =>
    rw [driverLoop_found grepExp fileName fuel total ifs h rep' hd] at hrep
    exact ⟨rep', rfl, (Option.some.inj hrep).symm⟩

/-- The bound on the iterations is never reached: with more iterations allowed than
lines left, the driver loop ends by the not-found value. -/
theorem driverLoop_terminates (grepExp : Regex) (fileName : String) :
    ∀ (fuel total : Nat) (ifs : List Line), ifs.length < fuel →
      ∃ rep, driverLoop grepExp fileName fuel total ifs = some rep := by
  intro fuel
  induction fuel with
  | zero => intro total ifs h; omega
  | succ fuel ih =>
    intro total ifs h
    by_cases hr : (findFunction ifs grepExp true).result.1 = notFound
    · exact ⟨_, driverLoop_notFound grepExp fileName fuel total ifs hr⟩
    · obtain ⟨-, h2, h3, h4, -, -⟩ := findFunction_success ifs grepExp hr
      obtain ⟨rep', hrep'⟩ := ih (total + (findFunction ifs grepExp true).result.2.2)
        (findFunction ifs grepExp true).is (by rw [h2, List.length_drop]; omega)
      exact ⟨_, driverLoop_found grepExp fileName fuel total ifs hr rep' hrep'⟩

/-- `processFile` ends on every file. -/
theorem processFile_terminates (grepExp : Regex) (fileName : String) (file : List Line) :
    ∃ rep, processFile grepExp fileName file = some rep := by
  unfold processFile
  split_ifs
  · exact driverLoop_terminates grepExp fileName _ 0 file (by omega)
  · exact ⟨_, rfl⟩

theorem preScan_eq_true (grepExp : Regex) : ∀ (file : List Line),
    preScan grepExp file = true ↔ ∃ x ∈ file, regex_search x grepExp = true := by
  intro file
  induction file with
  | nil => simp [preScan]
  | cons s rest ih =>
    rw [preScan]
    split_ifs with h
    · simp [h]
    · simp [h, ih]

/-- C10. If the pattern matches no raw line of the file, `processFile` prints
nothing and makes no call of `findFunction`. -/
theorem processFile_no_match (grepExp : Regex) (fileName : String) (file : List Line)
    (h : ∀ x ∈ file, regex_search x grepExp = false) :
    processFile grepExp fileName file = some { cout := [], calls := 0 } := by
  have hpre : ¬ preScan grepExp file = true := by
    rw [preScan_eq_true]
    rintro ⟨x, hx, hm⟩
    rw [h x hx] at hm
    exact Bool.false_ne_true hm
  unfold processFile
  rw [if_neg hpre]

theorem processFile_no_match_witness :
    processFile braceExp "example1.cpp" [scopeFunctionLine, "  int x = 1;".toList] =
      some { cout := [], calls := 0 } :=
  processFile_no_match braceExp "example1.cpp" [scopeFunctionLine, "  int x = 1;".toList]
    (by decide)

theorem linesRange_drop (file : List Line) (total b e : Nat) (hb : 1 ≤ b) :
    linesRange (file.drop total) b e = linesRange file (total + b) (total + e) := by
  unfold linesRange
  rw [List.take_drop, List.drop_drop]
  congr 1
  omega

theorem driverLoop_blocks (grepExp : Regex) (fileName : String) (file : List Line) :
    ∀ (fuel total : Nat) (rep : Report), total ≤ file.length →
      driverLoop grepExp fileName fuel total (file.drop total) = some rep →
      ∀ (k : Nat) (blk : Block), rep.cout[k]? = some blk →
        (findFunction (file.drop ((nextTotal grepExp file)^[k] total)) grepExp true).result.1
          ≠ notFound ∧
        (nextTotal grepExp file)^[k] total ≤ file.length ∧
        blk =
          { fileName := fileName
            matchLine := (nextTotal grepExp file)^[k] total +
              (findFunction (file.drop ((nextTotal grepExp file)^[k] total)) grepExp true).result.1
            startLine := (nextTotal grepExp file)^[k] total +
              (findFunction (file.drop ((nextTotal grepExp file)^[k] total)) grepExp true).result.2.1
            endLine := (nextTotal grepExp file)^[k] total +
              (findFunction (file.drop ((nextTotal grepExp file)^[k] total)) grepExp true).result.2.2
            text :=
              (findFunction (file.drop ((nextTotal grepExp file)^[k] total)) grepExp true).os } := by
  intro fuel
  induction fuel with
  | zero => intro total rep _ h; simp [driverLoop] at h
  | succ fuel ih =>
    intro total rep htot hrep k blk hk
    by_cases hr : (findFunction (file.drop total) grepExp true).result.1 = notFound
    · rw [driverLoop_notFound grepExp fileName fuel total _ hr] at hrep
      cases Option.some.inj hrep
      simp at hk
    · obtain ⟨rep', hrep', rfl⟩ := driverLoop_found_inv grepExp fileName fuel total _ hr rep hrep
      obtain ⟨-, h2, h3, h4, -, -⟩ := findFunction_success _ grepExp hr
      cases k with
      | zero =>
        simp only [List.getElem?_cons_zero, Option.some.injEq] at hk
        exact ⟨hr, htot, hk.symm⟩
      | succ k =>
        simp only [List.getElem?_cons_succ] at hk
        have hdd : List.drop (findFunction (file.drop total) grepExp true).result.2.2
            (List.drop total file) =
            List.drop (total + (findFunction (file.drop total) grepExp true).result.2.2) file := by
          rw [List.drop_drop, Nat.add_comm]
        rw [h2, hdd] at hrep'
        rw [List.length_drop] at h4
        have := ih (total + (findFunction (file.drop total) grepExp true).result.2.2) rep'
          (by omega) hrep' k blk hk
        simpa [Function.iterate_succ, nextTotal] using this

/-- C5. Every block that `processFile` prints carries absolute line numbers: block
`k + 1` comes from a successful call of `findFunction` on the file less the
`totalBefore k` lines read by the calls before it, its three numbers are the
numbers returned by that call plus `totalBefore k`, its text is the lines
`startLine` to `endLine` of the file, and it ends before the next block starts. -/
theorem processFile_absolute_lines (grepExp : Regex) (fileName : String) (file : List Line) :
    ∃ rep, processFile grepExp fileName file = some rep ∧
      ∀ (k : Nat) (blk : Block), rep.cout[k]? = some blk →
        (findFunction (file.drop (totalBefore grepExp file k)) grepExp true).result.1
          ≠ notFound ∧
        blk.matchLine = totalBefore grepExp file k +
          (findFunction (file.drop (totalBefore grepExp file k)) grepExp true).result.1 ∧
        blk.startLine = totalBefore grepExp file k +
          (findFunction (file.drop (totalBefore grepExp file k)) grepExp true).result.2.1 ∧
        blk.endLine = totalBefore grepExp file k +
          (findFunction (file.drop (totalBefore grepExp file k)) grepExp true).result.2.2 ∧
        blk.endLine = totalBefore grepExp file (k + 1) ∧
        blk.text = emitLines (linesRange file blk.startLine blk.endLine) ∧
        totalBefore grepExp file k < blk.startLine ∧
        ∀ nxt : Block, rep.cout[k + 1]? = some nxt →
          blk.endLine < nxt.startLine ∧ blk.endLine < nxt.endLine := by
  obtain ⟨rep, hrep⟩ := processFile_terminates grepExp fileName file
  refine ⟨rep, hrep, ?_⟩
  unfold processFile at hrep
  split_ifs at hrep with hpre
  · have key := driverLoop_blocks grepExp fileName file (file.length + 1) 0 rep (Nat.zero_le _)
      hrep
    intro k blk hk
    obtain ⟨k1, k2, k3⟩ := key k blk hk
    obtain ⟨s1, s2, s3, s4, s5, s6⟩ := findFunction_success _ grepExp k1
    have hnext : (nextTotal grepExp file)^[k + 1] 0 = (nextTotal grepExp file)^[k] 0 +
        (findFunction (file.drop ((nextTotal grepExp file)^[k] 0)) grepExp true).result.2.2 := by
      rw [Function.iterate_succ_apply']
      rfl
    simp only [totalBefore]
    refine ⟨k1, by rw [k3], by rw [k3], by rw [k3], by rw [k3, hnext], ?_, ?_, ?_⟩
    · rw [k3]
      simp only
      rw [s1, linesRange_drop _ _ _ _ s5]
    · rw [k3]
      exact Nat.lt_add_of_pos_right s5
    · intro nxt hnxt
      obtain ⟨n1, n2, n3⟩ := key (k + 1) nxt hnxt
      obtain ⟨-, -, t3, -, t5, -⟩ := findFunction_success _ grepExp n1
      have hk3 : blk.endLine = (nextTotal grepExp file)^[k + 1] 0 := by rw [k3, hnext]
      rw [hk3, n3]
      exact ⟨Nat.lt_add_of_pos_right t5, Nat.lt_add_of_pos_right t3⟩
  · cases Option.some.inj hrep
    intro k blk hk
    simp at hk

/-- C6. A file of plain lines whose only boundary close is its last line, and in
which one line or more match the pattern (`l` being the last of them), of fewer
than `2^64 - 1` lines: `processFile` prints exactly one block, whose text is the
whole file. -/
theorem processFile_one_block (grepExp : Regex) (fileName : String) (a q : List Line)
    (l : Line) (hplain : ∀ x ∈ a ++ l :: q, Plain x) (hclose : ClosesOnlyAtEnd (a ++ l :: q))
    (hl : regex_search l grepExp = true) (hq : ∀ x ∈ q, regex_search x grepExp = false)
    (hlen : (a ++ l :: q).length < notFound) :
    processFile grepExp fileName (a ++ l :: q) =
      some { cout := [{ fileName := fileName, matchLine := a.length + 1, startLine := 1,
                        endLine := (a ++ l :: q).length, text := emitLines (a ++ l :: q) }]
             calls := 2 } := by
  have hfirst : findFunction (a ++ l :: q) grepExp true =
      { result := (a.length + 1, 1, (a ++ l :: q).length)
        os := emitLines (a ++ l :: q)
        is := [] } := by
    have := loop_plain_found grepExp true State.init a q [] l hplain rfl rfl (by decide)
      hclose hl hq
    rw [List.append_nil] at this
    unfold findFunction
    rw [this]
    simp [State.init]
    omega
  have hpre : preScan grepExp (a ++ l :: q) = true :=
    (preScan_eq_true grepExp _).mpr ⟨l, by simp, hl⟩
  have hne : (findFunction (a ++ l :: q) grepExp true).result.1 ≠ notFound := by
    rw [hfirst]
    simp only [List.length_append, List.length_cons] at hlen
    simp only
    omega
  unfold processFile
  rw [if_pos hpre, driverLoop_found grepExp fileName _ 0 _ hne { cout := [], calls := 1 } (by
    rw [hfirst]
    simp only [List.length_append, List.length_cons]
    exact driverLoop_notFound grepExp fileName _ _ [] rfl)]
  rw [hfirst]
  simp

theorem processFile_one_block_witness :
    processFile fooExp "example1.cpp" example1 =
      some { cout := [{ fileName := "example1.cpp", matchLine := 1, startLine := 1,
                        endLine := 3, text := emitLines example1 }]
             calls := 2 } :=
  processFile_one_block fooExp "example1.cpp" [] example1Tail "void foo() \x7b".toList
    (by decide) (by decide) (by decide) (by decide) (by decide)

/-- C9. On example 2 with the pattern `foo` no block is emitted: the raw third line
has the pattern but its normalized text does not, `findFunction` reads the whole
stream, writes nothing and returns the not-found value, and `processFile`, which
makes that one call, prints nothing. -/
theorem example2_no_block :
    regex_search "  // foo appears here only in a comment".toList fooExp = true ∧
    regex_search
      (stripStage (commentStage false "  // foo appears here only in a comment".toList).1)
      fooExp = false ∧
    findFunction example2 fooExp true = { result := (notFound, 6, 6), os := [], is := [] } ∧
    ∀ fileName : String,
      processFile fooExp fileName example2 = some { cout := [], calls := 1 } := by
  refine ⟨by decide, by decide, by decide, fun fileName => ?_⟩
  have h : (findFunction example2 fooExp true).result.1 = notFound := by decide
  unfold processFile
  rw [if_pos (by decide)]
  exact driverLoop_notFound fooExp fileName _ 0 example2 h

/-! ## The line of the latest match -/

theorem closeBrackets_foundLoc (os : Bool) (n : Int) (st : State) :
    (∀ st', closeBrackets os n st = .next st' →
      st'.foundLoc = st.foundLoc ∧ st'.endLineNum = st.endLineNum) ∧
    (∀ r out, closeBrackets os n st = .ret r out →
      r.1 = st.foundLoc ∧ 0 < st.foundLoc ∧ r.2.2 = st.endLineNum) := by
  by_cases hn : 0 < n
  · by_cases hd : st.numOpenBrackets - n ≤ 0
    · by_cases hf : 0 < st.foundLoc
      · rw [closeBrackets_ret os n st hn hd hf]
        refine ⟨fun st' hst => by simp at hst, fun r out hst => ?_⟩
        simp only [Step.ret.injEq] at hst
        obtain ⟨rfl, -⟩ := hst
        exact ⟨rfl, hf, rfl⟩
      · rw [closeBrackets_reset os n st hn hd hf]
        refine ⟨fun st' hst => ?_, fun r out hst => by simp at hst⟩
        simp only [Step.next.injEq] at hst
        subst hst
        exact ⟨rfl, rfl⟩
    · rw [closeBrackets_inner os n st hn hd]
      refine ⟨fun st' hst => ?_, fun r out hst => by simp at hst⟩
      simp only [Step.next.injEq] at hst
      subst hst
      exact ⟨rfl, rfl⟩
  · rw [closeBrackets_none os n st hn]
    refine ⟨fun st' hst => ?_, fun r out hst => by simp at hst⟩
    simp only [Step.next.injEq] at hst
    subst hst
    exact ⟨rfl, rfl⟩

theorem scopeOpener_foundLoc (s : Line) (st : State) :
    (scopeOpener s st).foundLoc = st.foundLoc ∧ (scopeOpener s st).endLineNum = st.endLineNum := by
  unfold scopeOpener
  split_ifs <;> exact ⟨rfl, rfl⟩

theorem body_foundLoc (regExp : Regex) (os : Bool) (st : State) (raw : Line) :
    (∀ st', body regExp os st raw = .next st' →
      st'.foundLoc = (if recorderHits regExp st raw = true then st.endLineNum else st.foundLoc) ∧
      st'.endLineNum = st.endLineNum) ∧
    (∀ r out, body regExp os st raw = .ret r out →
      r.1 = (if recorderHits regExp st raw = true then st.endLineNum else st.foundLoc) ∧
      0 < r.1 ∧ r.2.2 = st.endLineNum) := by
  obtain ⟨-, hfl, -, hen, -⟩ := pushLine_frame os st raw
  by_cases hc : (commentStage st.inMultiLineComment raw).2 = true
  · rw [body_skip regExp os st raw hc]
    have hh : recorderHits regExp st raw = false := by simp [recorderHits, hc]
    rw [hh]
    refine ⟨fun st' hst => ?_, fun r out hst => by simp at hst⟩
    simp only [Step.next.injEq] at hst
    subst hst
    exact ⟨hfl, hen⟩
  · have hc' : (commentStage st.inMultiLineComment raw).2 = false := by simpa using hc
    rw [body_scan regExp os st raw hc']
    by_cases hi : st.foundLoc = 0 ∧
        regex_search (stripStage (commentStage st.inMultiLineComment raw).1) includeExp = true
    · rw [scanLine_include _ _ _ _ (by simpa [hfl] using hi)]
      have hh : recorderHits regExp st raw = false := by simp [recorderHits, hi.1, hi.2]
      rw [hh]
      refine ⟨fun st' hst => ?_, fun r out hst => by simp at hst⟩
      simp only [Step.next.injEq] at hst
      subst hst
      exact ⟨hfl, hen⟩
    · rw [scanLine_rest _ _ _ _ (by simpa [hfl] using hi)]
      have hh : recorderHits regExp st raw =
          regex_search (stripStage (commentStage st.inMultiLineComment raw).1) regExp := by
        have hi' : (decide (st.foundLoc = 0) &&
            regex_search (stripStage (commentStage st.inMultiLineComment raw).1) includeExp)
            = false := by
          simpa using hi
        simp only [recorderHits, hc', hi', Bool.not_false, Bool.true_and]
      rw [hh]
      obtain ⟨c1, c2⟩ := closeBrackets_foundLoc os
        ((stripStage (commentStage st.inMultiLineComment raw).1).count '}' : Int)
        (openBrackets (stripStage (commentStage st.inMultiLineComment raw).1)
          (scopeOpener (stripStage (commentStage st.inMultiLineComment raw).1)
            (recordMatch regExp (stripStage (commentStage st.inMultiLineComment raw).1)
              { pushLine os st raw with inMultiLineComment := false })))
      have e1 : (openBrackets (stripStage (commentStage st.inMultiLineComment raw).1)
          (scopeOpener (stripStage (commentStage st.inMultiLineComment raw).1)
            (recordMatch regExp (stripStage (commentStage st.inMultiLineComment raw).1)
              { pushLine os st raw with inMultiLineComment := false }))).foundLoc =
          (if regex_search (stripStage (commentStage st.inMultiLineComment raw).1) regExp = true
            then st.endLineNum else st.foundLoc) := by
        simp only [openBrackets]
        rw [(scopeOpener_foundLoc _ _).1]
        unfold recordMatch
        split_ifs <;> simp [hfl, hen]
      have e2 : (openBrackets (stripStage (commentStage st.inMultiLineComment raw).1)
          (scopeOpener (stripStage (commentStage st.inMultiLineComment raw).1)
            (recordMatch regExp (stripStage (commentStage st.inMultiLineComment raw).1)
              { pushLine os st raw with inMultiLineComment := false }))).endLineNum =
          st.endLineNum := by
        simp only [openBrackets]
        rw [(scopeOpener_foundLoc _ _).2]
        unfold recordMatch
        split_ifs <;> simp [hfl, hen]
      refine ⟨fun st' hst => ?_, fun r out hst => ?_⟩
      · obtain ⟨a1, a2⟩ := c1 st' hst
        exact ⟨a1.trans e1, a2.trans e2⟩
      · obtain ⟨a1, a2, a3⟩ := c2 r out hst
        exact ⟨a1.trans e1, a1 ▸ a2, a3.trans e2⟩

theorem stateAfter_snoc (regExp : Regex) (os : Bool) : ∀ (seen : List Line) (st0 st st' : State)
    (raw : Line), stateAfter regExp os st0 seen = some st →
    body regExp os st raw = .next st' →
    stateAfter regExp os st0 (seen ++ [raw]) =
      some { st' with endLineNum := st'.endLineNum + 1 } := by
  intro seen
  induction seen with
  | nil =>
    intro st0 st st' raw h hb
    simp only [stateAfter, Option.some.injEq] at h
    subst h
    simp only [List.nil_append, stateAfter, hb]
  | cons x seen ih =>
    intro st0 st st' raw h hb
    rw [List.cons_append, stateAfter]
    rw [stateAfter] at h
    cases hx : body regExp os st0 x with
    | next s1 =>
      rw [hx] at h
      simp only at h ⊢
      exact ih _ st st' raw h hb
    | ret r out =>
      rw [hx] at h
      simp at h

theorem hitAt_next (regExp : Regex) (os : Bool) (seen rest : List Line) (raw : Line)
    (st : State) (h : stateAfter regExp os State.init seen = some st) :
    hitAt regExp os (seen ++ raw :: rest) (seen.length + 1) =
      some (recorderHits regExp st raw) := by
  unfold hitAt
  simp only [Nat.add_sub_cancel, List.take_left', List.getElem?_append_right (le_refl _),
    Nat.sub_self, List.getElem?_cons_zero, h]

theorem loop_latest (regExp : Regex) (os : Bool) (is : List Line) :
    ∀ (rest seen : List Line) (st : State) (o : Outcome), is = seen ++ rest →
      stateAfter regExp os State.init seen = some st →
      st.endLineNum = seen.length + 1 → st.foundLoc ≤ seen.length →
      (st.foundLoc ≠ 0 → hitAt regExp os is st.foundLoc = some true) →
      (∀ n, st.foundLoc < n → n ≤ seen.length → hitAt regExp os is n = some false) →
      loop regExp os st rest = o →
      (o.result.1 = notFound ∧ o.result.2.2 = is.length + 1 ∧ o.is = [] ∧ o.os = []) ∨
      (1 ≤ o.result.1 ∧ o.result.1 ≤ o.result.2.2 ∧ o.result.2.2 ≤ is.length ∧
        hitAt regExp os is o.result.1 = some true ∧
        ∀ n, o.result.1 < n → n ≤ o.result.2.2 → hitAt regExp os is n = some false) := by
  intro rest
  induction rest with
  | nil =>
    intro seen st o his _ hend _ _ _ ho
    rw [loop_nil] at ho
    subst ho
    left
    simp [his, hend]
  | cons raw rest ih =>
    intro seen st o his hst hend hf1 hf2 hf3 ho
    have hhit : hitAt regExp os is (seen.length + 1) = some (recorderHits regExp st raw) := by
      rw [his]
      exact hitAt_next regExp os seen rest raw st hst
    obtain ⟨bn, br⟩ := body_foundLoc regExp os st raw
    cases hb : body regExp os st raw with
    | next st' =>
      rw [loop_cons_next _ _ _ _ _ _ hb] at ho
      obtain ⟨n1, n2⟩ := bn st' hb
      refine ih (seen ++ [raw]) { st' with endLineNum := st'.endLineNum + 1 } o
        (by simp [his]) (stateAfter_snoc regExp os seen _ st st' raw hst hb)
        (by simp [n2, hend]) ?_ ?_ ?_ ho
      · simp only [n1, List.length_append, List.length_singleton]
        split_ifs <;> omega
      · simp only [n1]
        split_ifs with hh
        · intro _
          rw [hend, hhit, hh]
        · exact hf2
      · simp only [n1, List.length_append, List.length_singleton]
        intro n hn1 hn2
        split_ifs at hn1 with hh
        · omega
        · by_cases hn : n ≤ seen.length
          · exact hf3 n hn1 hn
          · have hn' : n = seen.length + 1 := by omega
            rw [hn', hhit]
            simpa using hh
    | ret r out =>
      rw [loop_cons_ret _ _ _ _ _ _ _ hb] at ho
      subst ho
      obtain ⟨r1, r2, r3⟩ := br r out hb
      right
      have hlen : seen.length + 1 ≤ is.length := by simp [his]
      simp only
      by_cases hh : recorderHits regExp st raw = true
      · rw [if_pos hh] at r1
        refine ⟨by omega, by omega, by omega, by rw [r1, hend, hhit, hh], ?_⟩
        intro n hn1 hn2
        omega
      · rw [if_neg hh] at r1
        refine ⟨by omega, by omega, by omega, by rw [r1]; exact hf2 (by omega), ?_⟩
        intro n hn1 hn2
        by_cases hn : n ≤ seen.length
        · exact hf3 n (by omega) hn
        · have hn' : n = seen.length + 1 := by omega
          rw [hn', hhit]
          simpa using hh

theorem findFunction_latest (is : List Line) (regExp : Regex) (os : Bool) :
    ((findFunction is regExp os).result.1 = notFound ∧
      (findFunction is regExp os).result.2.2 = is.length + 1 ∧
      (findFunction is regExp os).is = [] ∧ (findFunction is regExp os).os = []) ∨
    (1 ≤ (findFunction is regExp os).result.1 ∧
      (findFunction is regExp os).result.1 ≤ (findFunction is regExp os).result.2.2 ∧
      (findFunction is regExp os).result.2.2 ≤ is.length ∧
      hitAt regExp os is (findFunction is regExp os).result.1 = some true ∧
      ∀ n, (findFunction is regExp os).result.1 < n → n ≤ (findFunction is regExp os).result.2.2 →
        hitAt regExp os is n = some false) :=
  loop_latest regExp os is is [] State.init _ rfl rfl rfl (Nat.le_refl _)
    (fun h => absurd rfl h) (fun n h1 h2 => by simp at h2; omega) rfl

/-- C8. Whenever `findFunction` returns success `(m, b, e)`, line `m` is the latest
line up to `e` that reached the assignment of the match line with a normalized
text that matches the pattern: line `m` did, and no line after it up to `e` did. -/
theorem findFunction_latest_match (is : List Line) (regExp : Regex) (os : Bool) (m b e : Nat)
    (hr : (findFunction is regExp os).result = (m, b, e)) (hm : m ≠ notFound) :
    1 ≤ m ∧ m ≤ e ∧ e ≤ is.length ∧ hitAt regExp os is m = some true ∧
    ∀ n, m < n → n ≤ e → hitAt regExp os is n = some false := by
  rcases findFunction_latest is regExp os with h | h
  · rw [hr] at h
    exact absurd h.1 hm
  · rw [hr] at h
    exact h

theorem findFunction_latest_match_witness :
    1 ≤ 1 ∧ 1 ≤ 3 ∧ 3 ≤ example1.length ∧ hitAt fooExp true example1 1 = some true ∧
    ∀ n, 1 < n → n ≤ 3 → hitAt fooExp true example1 n = some false :=
  findFunction_latest_match example1 fooExp true 1 1 3 (by decide) (by decide)

/-- C7, what the code does. When a call ends by the not-found value on a stream of
fewer than `2^64 - 1` lines, the third component is one more than the number of
lines read (1 on an empty stream, not 0), the stream is read to its end and
nothing is written. -/
theorem findFunction_exhausted (is : List Line) (regExp : Regex) (os : Bool)
    (h : (findFunction is regExp os).result.1 = notFound) (hlen : is.length < notFound) :
    (findFunction is regExp os).result.2.2 = is.length + 1 ∧
    (findFunction is regExp os).is = [] ∧ (findFunction is regExp os).os = [] := by
  rcases findFunction_latest is regExp os with h' | h'
  · exact h'.2
  · omega

theorem findFunction_exhausted_witness :
    (findFunction [] fooExp true).result.2.2 = 0 + 1 ∧
    (findFunction [] fooExp true).is = [] ∧ (findFunction [] fooExp true).os = [] :=
  findFunction_exhausted [] fooExp true (by decide) (by decide)

/-! ## Text before the first match, text inside a match -/

theorem searchGroup_of_groupAt (re : CaptureRegex) (t g : Line)
    (h : re.groupAt t = some g) : searchGroup re t = some g := by
  cases t with
  | nil => simpa [searchGroup] using h
  | cons c r => simp [searchGroup, h]

theorem searchGroup_beg_isSome : ∀ s : Line,
    (searchGroup begMultiLineCommentExp s).isSome = occursIn ['/', '*'] s := by
  intro s
  induction s with
  | nil => rfl
  | cons c rest ih =>
    by_cases hp : ['/', '*'].isPrefixOf (c :: rest) = true
    · have hg : begMultiLineCommentExp.groupAt (c :: rest) = some [] := by
        simp only [begMultiLineCommentExp, begGroupAt, hp, if_true]
      rw [searchGroup_of_groupAt _ _ _ hg, occursIn, hp]
      rfl
    · have hp' : ['/', '*'].isPrefixOf (c :: rest) = false := Bool.eq_false_iff.mpr hp
      rw [occursIn, hp', Bool.false_or, ← ih, searchGroup]
      cases hg : begMultiLineCommentExp.groupAt (c :: rest) with
      | none => rfl
      | some g =>
        simp only [begMultiLineCommentExp, begGroupAt, hp', Bool.false_eq_true, if_false] at hg
        split_ifs at hg with ht
        cases hr : begGroupAt rest with
        | none => rw [hr] at hg; simp at hg
        | some g' =>
          have : begMultiLineCommentExp.groupAt rest = some g' := hr
          rw [searchGroup_of_groupAt _ _ _ this]
          rfl

theorem endGroupAt_none : ∀ (s : Line), occursIn ['*', '/'] s = false → endGroupAt s = none := by
  intro s
  induction s with
  | nil => intro _; rfl
  | cons c rest ih =>
    intro h
    simp only [occursIn, Bool.or_eq_false_iff] at h
    rw [endGroupAt, if_neg (by rw [h.1]; exact Bool.false_ne_true), ih h.2]
    split_ifs <;> rfl

theorem searchGroup_end_none : ∀ (s : Line), occursIn ['*', '/'] s = false →
    searchGroup endMultiLineCommentExp s = none := by
  intro s
  induction s with
  | nil => intro _; rfl
  | cons c rest ih =>
    intro h
    have h' := h
    simp only [occursIn, Bool.or_eq_false_iff] at h'
    rw [searchGroup]
    simp only [endMultiLineCommentExp, endGroupAt_none _ h]
    exact ih h'.2

theorem processFile_absolute_lines_witness :
    processFile fooExp "example3.cpp" example3 =
      some { cout := [{ fileName := "example3.cpp", matchLine := 1, startLine := 1, endLine := 3,
                        text := emitLines (linesRange example3 1 3) },
                      { fileName := "example3.cpp", matchLine := 4, startLine := 4, endLine := 6,
                        text := emitLines (linesRange example3 4 6) }]
             calls := 3 } ∧
    ∃ rep, processFile fooExp "example3.cpp" example3 = some rep ∧
      ∀ (k : Nat) (blk : Block), rep.cout[k]? = some blk →
        (findFunction (example3.drop (totalBefore fooExp example3 k)) fooExp true).result.1
          ≠ notFound ∧
        blk.matchLine = totalBefore fooExp example3 k +
          (findFunction (example3.drop (totalBefore fooExp example3 k)) fooExp true).result.1 ∧
        blk.startLine = totalBefore fooExp example3 k +
          (findFunction (example3.drop (totalBefore fooExp example3 k)) fooExp true).result.2.1 ∧
        blk.endLine = totalBefore fooExp example3 k +
          (findFunction (example3.drop (totalBefore fooExp example3 k)) fooExp true).result.2.2 ∧
        blk.endLine = totalBefore fooExp example3 (k + 1) ∧
        blk.text = emitLines (linesRange example3 blk.startLine blk.endLine) ∧
        totalBefore fooExp example3 k < blk.startLine ∧
        ∀ nxt : Block, rep.cout[k + 1]? = some nxt →
          blk.endLine < nxt.startLine ∧ blk.endLine < nxt.endLine :=
  ⟨by decide, processFile_absolute_lines fooExp "example3.cpp" example3⟩

/-! ## The match line across a reset -/

/-- C11, what the code does. The helper `reset` leaves `foundLoc` as it is, and so
does the whole treatment of a scope opener: a match recorded on the opener line
or on a line before it is still on record after the opener line.  With the
pattern `foo`, after the line `class foo {` the match line is 1 while the block
starts at line 2, and the call returns the function `bar` that follows, which
has no `foo` in it, with match line 1; a match on a declaration before a
namespace is carried into the namespace in the same way. -/
theorem scopeOpener_keeps_match :
    (∀ st : State, st.reset.foundLoc = st.foundLoc) ∧
    (∀ (s : Line) (st : State), (scopeOpener s st).foundLoc = st.foundLoc) ∧
    regex_search classFooLine nsClassExp = true ∧
    regex_search classFooLine usingNSClassExp = false ∧
    body fooExp true State.init classFooLine =
      .next { lines := [], numOpenBrackets := 0, foundLoc := 1, begLineNum := 2,
              endLineNum := 1, inMultiLineComment := false } ∧
    findFunction [classFooLine, barLine, closingBrace] fooExp true =
      { result := (1, 2, 3), os := emitLines [barLine, closingBrace], is := [] } ∧
    findFunction [fooDeclLine, scopeOpenerLine, barLine, closingBrace, closingBrace] fooExp true =
      { result := (1, 3, 4), os := emitLines [barLine, closingBrace], is := [closingBrace] } := by
  refine ⟨fun st => rfl, fun s st => (scopeOpener_foundLoc s st).1, ?_, ?_, ?_, ?_, ?_⟩ <;> decide

/-- C18, what the code does. The reported match line need not lie in the reported
range: with the pattern `foo`, the class line `class foo {` followed by a function
without `foo` gives `(m, b, e) = (1, 2, 3)`, where `m < b`, and the line
`class foo {};` alone gives `(1, 2, 1)`, where moreover `e < b` and nothing is
emitted. -/
theorem findFunction_match_outside_block :
    (findFunction [classFooLine, barLine, closingBrace] fooExp true).result = (1, 2, 3) ∧
    ¬ (2 ≤ 1 ∧ 1 ≤ 3) ∧
    findFunction [classFooOneLine] fooExp true = { result := (1, 2, 1), os := [], is := [] } ∧
    ¬ (2 ≤ 1 ∧ 1 ≤ 1) ∧ ¬ (2 ≤ 1) ∧ (1 : Nat) ≠ notFound := by
  decide

/-! ## The nesting tracker -/

/-- C12. The step of the nesting tracker (source lines 115-133) on a normalized line
`s` with `o` opening and `c` closing brackets, from a state `st` of depth `d`:
without a `}` the depth becomes `d + o` and the loop goes on, whatever the sign
of `d + o`; with a `}` and `d + o - c > 0` the depth becomes `d + o - c` and the
loop goes on; with a `}` and `d + o - c <= 0` the call returns success when a match
is on record, and otherwise the state is reset: empty buffer, depth 0, block
start at the next line.  The tracker is what `scanLine` ends with on every line
that the guard on inclusion directives lets through. -/
theorem tracker_step (os : Bool) (st : State) (s : Line) :
    (∀ regExp : Regex, ¬ (st.foundLoc = 0 ∧ regex_search s includeExp = true) →
      scanLine regExp os st s =
        closeBrackets os (s.count '}' : Int)
          (openBrackets s (scopeOpener s (recordMatch regExp s st)))) ∧
    (s.count '}' = 0 →
      closeBrackets os (s.count '}' : Int) (openBrackets s st) =
        .next { st with numOpenBrackets := st.numOpenBrackets + (s.count '{' : Int) }) ∧
    (0 < s.count '}' →
      0 < st.numOpenBrackets + (s.count '{' : Int) - (s.count '}' : Int) →
      closeBrackets os (s.count '}' : Int) (openBrackets s st) =
        .next { st with numOpenBrackets :=
                  st.numOpenBrackets + (s.count '{' : Int) - (s.count '}' : Int) }) ∧
    (0 < s.count '}' →
      st.numOpenBrackets + (s.count '{' : Int) - (s.count '}' : Int) ≤ 0 →
      0 < st.foundLoc →
      closeBrackets os (s.count '}' : Int) (openBrackets s st) =
        .ret (st.foundLoc, st.begLineNum, st.endLineNum)
          (if os then emitLines st.lines else [])) ∧
    (0 < s.count '}' →
      st.numOpenBrackets + (s.count '{' : Int) - (s.count '}' : Int) ≤ 0 →
      st.foundLoc = 0 →
      closeBrackets os (s.count '}' : Int) (openBrackets s st) =
        .next { st with lines := [], numOpenBrackets := 0,
                        begLineNum := st.endLineNum + 1 }) := by
  refine ⟨fun regExp h => scanLine_rest regExp os st s h, ?_, ?_, ?_, ?_⟩
  · intro hc
    rw [closeBrackets_none _ _ _ (by simp [hc])]
    rfl
  · intro hc hd
    rw [closeBrackets_inner _ _ _ (by exact_mod_cast hc) (by simp only [openBrackets]; omega)]
    rfl
  · intro hc hd hf
    rw [closeBrackets_ret _ _ _ (by exact_mod_cast hc) (by simp only [openBrackets]; omega)
      (by simpa [openBrackets] using hf)]
    rfl
  · intro hc hd hf
    rw [closeBrackets_reset _ _ _ (by exact_mod_cast hc) (by simp only [openBrackets]; omega)
      (by simp [openBrackets, hf])]
    rfl

theorem tracker_step_witness :
    closeBrackets true (closingBrace.count '}' : Int) (openBrackets closingBrace State.init) =
      .next { State.init with lines := [], numOpenBrackets := 0,
                              begLineNum := State.init.endLineNum + 1 } :=
  (tracker_step true State.init closingBrace).2.2.2.2 (by decide) (by decide) rfl

/-! ## The line of a scope opener -/

/-- C13, as amended. On a line whose normalized text `s` is classified as a scope
opener, with `k` occurrences of the keywords, the buffer is emptied, the block
start is set to the next line and the depth to `-k`; the nesting tracker then
runs on that same line from the depth `-k`: without a `}` the depth after the
line is `o - k`, with `}` it is `o - k - c` when that is positive, and when it is
not and no match is on record the state is reset once more. -/
theorem opener_line_tracked (os : Bool) (st : State) (s : Line)
    (hns : regex_search s nsClassExp = true) (hus : regex_search s usingNSClassExp = false) :
    scopeOpener s st =
      { st with lines := [], numOpenBrackets := -(countMatches s nsClassExp : Int),
                begLineNum := st.endLineNum + 1 } ∧
    (s.count '}' = 0 →
      closeBrackets os (s.count '}' : Int) (openBrackets s (scopeOpener s st)) =
        .next { st with lines := []
                        numOpenBrackets := (s.count '{' : Int) - (countMatches s nsClassExp : Int)
                        begLineNum := st.endLineNum + 1 }) ∧
    (0 < s.count '}' →
      0 < (s.count '{' : Int) - (countMatches s nsClassExp : Int) - (s.count '}' : Int) →
      closeBrackets os (s.count '}' : Int) (openBrackets s (scopeOpener s st)) =
        .next { st with lines := []
                        numOpenBrackets := (s.count '{' : Int) -
                          (countMatches s nsClassExp : Int) - (s.count '}' : Int)
                        begLineNum := st.endLineNum + 1 }) ∧
    (0 < s.count '}' →
      (s.count '{' : Int) - (countMatches s nsClassExp : Int) - (s.count '}' : Int) ≤ 0 →
      st.foundLoc = 0 →
      closeBrackets os (s.count '}' : Int) (openBrackets s (scopeOpener s st)) =
        .next { st with lines := [], numOpenBrackets := 0,
                        begLineNum := st.endLineNum + 1 }) := by
  have hso : scopeOpener s st =
      { st with lines := [], numOpenBrackets := -(countMatches s nsClassExp : Int),
                begLineNum := st.endLineNum + 1 } := by
    simp [scopeOpener, hns, hus, State.reset]
  refine ⟨hso, ?_, ?_, ?_⟩
  · intro hc
    rw [hso, closeBrackets_none _ _ _ (by simp [hc])]
    simp only [openBrackets, Step.next.injEq, State.mk.injEq, and_true, true_and]
    omega
  · intro hc hd
    rw [hso, closeBrackets_inner _ _ _ (by exact_mod_cast hc)
      (by simp only [openBrackets]; omega)]
    simp only [openBrackets, Step.next.injEq, State.mk.injEq, and_true, true_and]
    omega
  · intro hc hd hf
    rw [hso, closeBrackets_reset _ _ _ (by exact_mod_cast hc)
      (by simp only [openBrackets]; omega) (by simp [openBrackets, hf])]
    rfl

theorem opener_line_tracked_witness :
    scopeOpener scopeOpenerLine State.init =
      { State.init with lines := []
                        numOpenBrackets := -(countMatches scopeOpenerLine nsClassExp : Int)
                        begLineNum := State.init.endLineNum + 1 } ∧
    closeBrackets true (scopeOpenerLine.count '}' : Int)
        (openBrackets scopeOpenerLine (scopeOpener scopeOpenerLine State.init)) =
      .next { State.init with
                lines := []
                numOpenBrackets := (scopeOpenerLine.count '{' : Int) -
                  (countMatches scopeOpenerLine nsClassExp : Int)
                begLineNum := State.init.endLineNum + 1 } :=
  ⟨(opener_line_tracked true State.init scopeOpenerLine (by decide) (by decide)).1,
    (opener_line_tracked true State.init scopeOpenerLine (by decide) (by decide)).2.1
      (by decide)⟩

/-- C13 as stated fails. The line `namespace N {` is classified as a scope opener
with one keyword, and after it the depth is 0, not -1: its `{` is counted.  The
line `class foo {};` is classified as a scope opener as well, and with the
pattern `foo` the call returns success on that very line. -/
theorem opener_line_counterexample :
    stripStage (commentStage false scopeOpenerLine).1 = scopeOpenerLine ∧
    regex_search scopeOpenerLine nsClassExp = true ∧
    regex_search scopeOpenerLine usingNSClassExp = false ∧
    countMatches scopeOpenerLine nsClassExp = 1 ∧
    body fooExp true State.init scopeOpenerLine =
      .next { lines := [], numOpenBrackets := 0, foundLoc := 0, begLineNum := 2,
              endLineNum := 1, inMultiLineComment := false } ∧
    (0 : Int) ≠ -1 ∧
    regex_search classFooOneLine nsClassExp = true ∧
    regex_search classFooOneLine usingNSClassExp = false ∧
    body fooExp true State.init classFooOneLine = .ret (1, 2, 1) [] := by
  decide

/-! ## Inclusion directives -/

/-- C14. A line read outside a comment whose normalized text is an inclusion
directive: when no match is on record the state is reset (empty buffer, depth
0, block start at the next line) and the rest of the loop body is skipped, so
that no match is recorded even if the line matches the pattern; when a match is
on record the line goes through the recorder, the classifier and the tracker
like any other line. -/
theorem include_guard (regExp : Regex) (os : Bool) (st : State) (raw : Line)
    (hc : (commentStage st.inMultiLineComment raw).2 = false)
    (hi : regex_search (stripStage (commentStage st.inMultiLineComment raw).1) includeExp
      = true) :
    (st.foundLoc = 0 →
      body regExp os st raw =
        .next { lines := [], numOpenBrackets := 0, foundLoc := 0,
                begLineNum := st.endLineNum + 1, endLineNum := st.endLineNum,
                inMultiLineComment := false }) ∧
    (st.foundLoc ≠ 0 →
      body regExp os st raw =
        closeBrackets os
          ((stripStage (commentStage st.inMultiLineComment raw).1).count '}' : Int)
          (openBrackets (stripStage (commentStage st.inMultiLineComment raw).1)
            (scopeOpener (stripStage (commentStage st.inMultiLineComment raw).1)
              (recordMatch regExp (stripStage (commentStage st.inMultiLineComment raw).1)
                { pushLine os st raw with inMultiLineComment := false })))) := by
  obtain ⟨-, hfl, -, hen, -⟩ := pushLine_frame os st raw
  constructor
  · intro hf
    rw [body_scan regExp os st raw hc, scanLine_include _ _ _ _ ⟨by simp [hfl, hf], hi⟩]
    simp [State.reset, hfl, hen, hf]
  · intro hf
    rw [body_scan regExp os st raw hc,
      scanLine_rest _ _ _ _ (by simp only [hfl]; exact fun h => hf h.1)]

theorem include_guard_witness :
    (State.init.foundLoc = 0 →
      body fooExp true State.init includeFooLine =
        .next { lines := [], numOpenBrackets := 0, foundLoc := 0,
                begLineNum := State.init.endLineNum + 1, endLineNum := State.init.endLineNum,
                inMultiLineComment := false }) ∧
    regex_search includeFooLine fooExp = true :=
  ⟨(include_guard fooExp true State.init includeFooLine (by decide) (by decide)).1, by decide⟩

/-! ## Lines inside a comment that spans lines -/

theorem occursIn_of_suffix (w : Line) : ∀ (s t : Line), occursIn w s = false → t <:+ s →
    occursIn w t = false := by
  intro s
  induction s with
  | nil =>
    intro t h ht
    rw [List.suffix_nil] at ht
    subst ht
    exact h
  | cons c rest ih =>
    intro t h ht
    rcases List.suffix_cons_iff.mp ht with rfl | ht'
    · exact h
    · simp only [occursIn, Bool.or_eq_false_iff] at h
      exact ih t h.2 ht'

theorem lazyToClose_none : ∀ t : Line, occursIn ['*', '/'] t = false → lazyToClose t = none := by
  intro t
  induction t with
  | nil => intro _; rfl
  | cons c rest ih =>
    intro h
    simp only [occursIn, Bool.or_eq_false_iff] at h
    rw [lazyToClose, if_neg (by rw [h.1]; exact Bool.false_ne_true), ih h.2]
    split_ifs <;> rfl

theorem spanComment_noClose (s : Line) (h : occursIn ['*', '/'] s = false) :
    regex_replace s spanCommentExp [' '] = s := by
  apply regex_replace_noMatch
  intro p t ht
  simp only [spanCommentExp]
  rw [lazyToClose_none _ (occursIn_of_suffix _ s _ h ((List.drop_suffix 2 t).trans ht))]
  split_ifs <;> rfl

theorem commentStage_inside (raw : Line) (h : occursIn ['*', '/'] raw = false) :
    commentStage true raw = (raw, true) := by
  simp only [commentStage, spanComment_noClose raw h, searchGroup_end_none raw h,
    Bool.not_true, Bool.false_eq_true, if_false]

theorem commentStage_opens (raw : Line)
    (h : occursIn ['/', '*'] (regex_replace raw spanCommentExp [' ']) = true) :
    (commentStage false raw).2 = true := by
  have hs := searchGroup_beg_isSome (regex_replace raw spanCommentExp [' '])
  rw [h] at hs
  simp only [commentStage, Bool.not_false, if_true]
  cases hg : searchGroup begMultiLineCommentExp (regex_replace raw spanCommentExp [' ']) with
  | none => rw [hg] at hs; simp at hs
  | some m1 => rfl

theorem body_skip_frame (regExp : Regex) (os : Bool) (st : State) (raw : Line)
    (h : (commentStage st.inMultiLineComment raw).2 = true) :
    body regExp os st raw =
      .next { lines := if os then st.lines ++ [raw] else st.lines
              numOpenBrackets := st.numOpenBrackets
              foundLoc := st.foundLoc
              begLineNum := st.begLineNum
              endLineNum := st.endLineNum
              inMultiLineComment := true } := by
  rw [body_skip regExp os st raw h]
  cases os <;> rfl

/-- C15. A line after which the scanner is inside a comment that spans lines only
goes to the buffer (when there is an output stream): depth, match line and
block start stay as they are, and the loop goes on with the next line.  This
is so for a line without `*/` read inside such a comment, and for a line read
outside a comment that still has a `/*` once the comments that open and close
on the line are removed, whatever stands before that `/*`. -/
theorem comment_line_skipped (regExp : Regex) (os : Bool) (st : State) (raw : Line) :
    ((commentStage st.inMultiLineComment raw).2 = true →
      body regExp os st raw =
        .next { lines := if os then st.lines ++ [raw] else st.lines
                numOpenBrackets := st.numOpenBrackets
                foundLoc := st.foundLoc
                begLineNum := st.begLineNum
                endLineNum := st.endLineNum
                inMultiLineComment := true }) ∧
    (st.inMultiLineComment = true → occursIn ['*', '/'] raw = false →
      (commentStage st.inMultiLineComment raw).2 = true) ∧
    (st.inMultiLineComment = false →
      occursIn ['/', '*'] (regex_replace raw spanCommentExp [' ']) = true →
      (commentStage st.inMultiLineComment raw).2 = true) := by
  refine ⟨body_skip_frame regExp os st raw, ?_, ?_⟩
  · intro hic h
    rw [hic, commentStage_inside raw h]
  · intro hic h
    rw [hic]
    exact commentStage_opens raw h

theorem comment_line_skipped_witness :
    body fooExp true State.init openCommentLine =
      .next { lines := if true then State.init.lines ++ [openCommentLine] else State.init.lines
              numOpenBrackets := State.init.numOpenBrackets
              foundLoc := State.init.foundLoc
              begLineNum := State.init.begLineNum
              endLineNum := State.init.endLineNum
              inMultiLineComment := true } ∧
    regex_search openCommentLine fooExp = true ∧ 0 < openCommentLine.count '{' :=
  ⟨(comment_line_skipped fooExp true State.init openCommentLine).1
      ((comment_line_skipped fooExp true State.init openCommentLine).2.2 rfl (by decide)),
    by decide, by decide⟩

/-! ## A comment that is never closed -/

theorem loop_of_stateAfter (regExp : Regex) (os : Bool) (rest : List Line) :
    ∀ (pre : List Line) (st0 st : State), stateAfter regExp os st0 pre = some st →
      loop regExp os st0 (pre ++ rest) = loop regExp os st rest ∧
      st.endLineNum = st0.endLineNum + pre.length := by
  intro pre
  induction pre with
  | nil =>
    intro st0 st h
    simp only [stateAfter, Option.some.injEq] at h
    subst h
    exact ⟨rfl, rfl⟩
  | cons x pre ih =>
    intro st0 st h
    rw [stateAfter] at h
    cases hb : body regExp os st0 x with
    | ret r out => rw [hb] at h; simp at h
    | next s1 =>
      rw [hb] at h
      simp only at h
      obtain ⟨i1, i2⟩ := ih _ st h
      rw [List.cons_append, loop_cons_next _ _ _ _ _ _ hb]
      refine ⟨i1, ?_⟩
      rw [i2]
      simp only [((body_foundLoc regExp os st0 x).1 s1 hb).2, List.length_cons]
      omega

theorem loop_inside_comment (regExp : Regex) (os : Bool) : ∀ (post : List Line) (st : State),
    st.inMultiLineComment = true → (∀ x ∈ post, occursIn ['*', '/'] x = false) →
    loop regExp os st post =
      { result := (notFound, st.begLineNum, st.endLineNum + post.length), os := [], is := [] } := by
  intro post
  induction post with
  | nil => intro st _ _; rfl
  | cons x post ih =>
    intro st hic h
    have hx : (commentStage st.inMultiLineComment x).2 = true := by
      rw [hic, commentStage_inside x (h x (List.mem_cons_self x post))]
    rw [loop_cons_next _ _ _ _ _ _ (body_skip_frame regExp os st x hx),
      ih _ rfl (fun y hy => h y (List.mem_cons_of_mem x hy))]
    simp only [List.length_cons, Outcome.mk.injEq, Prod.mk.injEq, true_and, and_true]
    omega

/-- C16. When a call gets to line `j` outside a comment (`st` being the state in
which the line is read), line `j` still has a `/*` once the comments that open
and close on it are removed, and no later line has a `*/`, then the call
returns the not-found value, with the block start that `st` had, and emits
nothing; the stream is read to its end. -/
theorem unterminated_comment (regExp : Regex) (os : Bool) (pre post : List Line) (lj : Line)
    (st : State) (hreach : stateAfter regExp os State.init pre = some st)
    (hic : st.inMultiLineComment = false)
    (hopen : occursIn ['/', '*'] (regex_replace lj spanCommentExp [' ']) = true)
    (hpost : ∀ x ∈ post, occursIn ['*', '/'] x = false) :
    findFunction (pre ++ lj :: post) regExp os =
      { result := (notFound, st.begLineNum, (pre ++ lj :: post).length + 1)
        os := []
        is := [] } := by
  obtain ⟨h1, h2⟩ := loop_of_stateAfter regExp os (lj :: post) pre State.init st hreach
  have hx : (commentStage st.inMultiLineComment lj).2 = true := by
    rw [hic]
    exact commentStage_opens lj hopen
  unfold findFunction
  rw [h1, loop_cons_next _ _ _ _ _ _ (body_skip_frame regExp os st lj hx),
    loop_inside_comment regExp os post _ rfl hpost]
  simp only [h2, State.init, List.length_append, List.length_cons, Outcome.mk.injEq,
    Prod.mk.injEq, true_and, and_true]
  omega

theorem unterminated_comment_witness :
    findFunction ([fooLine] ++ openCommentLine :: [closingBrace]) fooExp true =
      { result := (notFound, 1, ([fooLine] ++ openCommentLine :: [closingBrace]).length + 1)
        os := []
        is := [] } :=
  unterminated_comment fooExp true [fooLine] [closingBrace] openCommentLine
    { lines := [fooLine], numOpenBrackets := 1, foundLoc := 1, begLineNum := 1, endLineNum := 2,
      inMultiLineComment := false }
    (by decide) rfl (by decide) (by decide)

/-! ## The first pass of `processFile` -/

theorem hitAt_true (regExp : Regex) (os : Bool) (is : List Line) (n : Nat)
    (h : hitAt regExp os is n = some true) :
    ∃ raw ∈ is, ∃ ic : Bool, (commentStage ic raw).2 = false ∧
      regex_search (stripStage (commentStage ic raw).1) regExp = true := by
  unfold hitAt at h
  cases hs : stateAfter regExp os State.init (is.take (n - 1)) with
  | none => rw [hs] at h; simp at h
  | some st =>
    cases hr : is[n - 1]? with
    | none => rw [hs, hr] at h; simp at h
    | some raw =>
      rw [hs, hr] at h
      simp only [Option.some.injEq] at h
      refine ⟨raw, List.getElem?_mem hr, st.inMultiLineComment, ?_⟩
      simp only [recorderHits, Bool.and_eq_true, Bool.not_eq_true'] at h
      exact ⟨h.1.1, h.2⟩

theorem findFunction_notFound_of_noMatch (regExp : Regex) (os : Bool) (is : List Line)
    (h : ∀ x ∈ is, NoNormalizedMatch regExp x) :
    (findFunction is regExp os).result.1 = notFound := by
  rcases findFunction_latest is regExp os with h' | h'
  · exact h'.1
  · obtain ⟨raw, hraw, ic, h1, h2⟩ := hitAt_true regExp os is _ h'.2.2.2.1
    rw [h raw hraw ic h1] at h2
    exact absurd h2 Bool.false_ne_true

/-- C19, as amended. When some raw line of the file matches the pattern, or no line
of the file has a normalized text that matches it, `processFile` prints what the
driver loop prints when it is run without the first pass. -/
theorem preScan_optimisation (grepExp : Regex) (fileName : String) (file : List Line)
    (h : (∃ x ∈ file, regex_search x grepExp = true) ∨
      (∀ x ∈ file, NoNormalizedMatch grepExp x)) :
    (processFile grepExp fileName file).map Report.cout =
      (driverLoop grepExp fileName (file.length + 1) 0 file).map Report.cout := by
  by_cases hpre : preScan grepExp file = true
  · unfold processFile
    rw [if_pos hpre]
  · rcases h with h | h
    · exact absurd ((preScan_eq_true grepExp file).mpr h) hpre
    · unfold processFile
      rw [if_neg hpre, driverLoop_notFound grepExp fileName _ 0 file
        (findFunction_notFound_of_noMatch grepExp true file h)]
      rfl

theorem preScan_optimisation_witness :
    (processFile fooExp "example1.cpp" example1).map Report.cout =
      (driverLoop fooExp "example1.cpp" (example1.length + 1) 0 example1).map Report.cout ∧
    (processFile braceExp "example1.cpp" [fooDeclLine]).map Report.cout =
      (driverLoop braceExp "example1.cpp" ([fooDeclLine].length + 1) 0 [fooDeclLine]).map
        Report.cout :=
  ⟨preScan_optimisation fooExp "example1.cpp" example1
      (Or.inl ⟨fooLine, by decide, by decide⟩),
    preScan_optimisation braceExp "example1.cpp" [fooDeclLine] (Or.inr (by decide))⟩

/-- C19 as stated fails. No raw line of the file `x/**/y {}` matches the pattern
`x y`, but the removal of the comment leaves the normalized text `x y {}`, which
does: `findFunction` returns success `(1, 1, 1)` on the file, the driver loop
without the first pass prints one block, and `processFile` prints none. -/
theorem preScan_optimisation_counterexample :
    (∀ x ∈ [xyLine], regex_search x xyExp = false) ∧
    stripStage (commentStage false xyLine).1 = "x y \x7b\x7d".toList ∧
    findFunction [xyLine] xyExp true =
      { result := (1, 1, 1), os := emitLines [xyLine], is := [] } ∧
    (findFunction [xyLine] xyExp true).result.1 ≠ notFound ∧
    processFile xyExp "xy.cpp" [xyLine] = some { cout := [], calls := 0 } ∧
    driverLoop xyExp "xy.cpp" ([xyLine].length + 1) 0 [xyLine] =
      some { cout := [{ fileName := "xy.cpp", matchLine := 1, startLine := 1, endLine := 1,
                        text := emitLines [xyLine] }]
             calls := 2 } := by
  decide

/-! ## Where a search finds its match -/

theorem prevAt_none (a : Line) : prevAt none a = a.getLast? := by
  induction a using List.reverseRecOn with
  | nil => rfl
  | append_singleton a c _ => simp [prevAt, List.foldl_append]

theorem searchFrom_of_matchAt (re : Regex) (t : Line) : ∀ (a : Line) (prev : Option Char),
    (re.matchAt (prevAt prev a) t).isSome = true → searchFrom re prev (a ++ t) = true := by
  intro a
  induction a with
  | nil =>
    intro prev h
    cases t with
    | nil => simpa [searchFrom, prevAt] using h
    | cons c r =>
      rw [List.nil_append, searchFrom]
      simp only [prevAt, List.foldl_nil] at h
      rw [h]
      rfl
  | cons x a ih =>
    intro prev h
    rw [List.cons_append, searchFrom, ih (some x) h, Bool.or_true]

theorem matchAt_of_searchFrom (re : Regex) : ∀ (s : Line) (prev : Option Char),
    searchFrom re prev s = true →
    ∃ a t, s = a ++ t ∧ (re.matchAt (prevAt prev a) t).isSome = true := by
  intro s
  induction s with
  | nil =>
    intro prev h
    exact ⟨[], [], rfl, by simpa [searchFrom] using h⟩
  | cons c rest ih =>
    intro prev h
    rw [searchFrom, Bool.or_eq_true] at h
    rcases h with h | h
    · exact ⟨[], c :: rest, rfl, h⟩
    · obtain ⟨a, t, hs, hm⟩ := ih (some c) h
      exact ⟨c :: a, t, by rw [hs]; rfl, hm⟩

theorem regex_search_iff (re : Regex) (s : Line) :
    regex_search s re = true ↔
      ∃ a t, s = a ++ t ∧ (re.matchAt a.getLast? t).isSome = true := by
  unfold regex_search
  constructor
  · intro h
    obtain ⟨a, t, hs, hm⟩ := matchAt_of_searchFrom re s none h
    exact ⟨a, t, hs, by rw [← prevAt_none]; exact hm⟩
  · rintro ⟨a, t, rfl, hm⟩
    exact searchFrom_of_matchAt re t a none (by rw [prevAt_none]; exact hm)

theorem isPrefixOf_append (w t : Line) : w.isPrefixOf (w ++ t) = true := by
  rw [List.isPrefixOf_iff_prefix]
  exact List.prefix_append w t

theorem eq_append_of_isPrefixOf (w t : Line) (h : w.isPrefixOf t = true) :
    t = w ++ t.drop w.length := by
  rw [List.isPrefixOf_iff_prefix] at h
  exact (List.prefix_iff_eq_append.mp h).symm

theorem dropWhile_append_all (p : Char → Bool) : ∀ (l r : Line), (∀ x ∈ l, p x = true) →
    (l ++ r).dropWhile p = r.dropWhile p := by
  intro l
  induction l with
  | nil => intro r _; rfl
  | cons x l ih =>
    intro r h
    rw [List.cons_append, List.dropWhile_cons, if_pos (h x (List.mem_cons_self x l))]
    exact ih r (fun y hy => h y (List.mem_cons_of_mem x hy))

theorem dropWhile_head (p : Char → Bool) (c : Char) (r : Line) (h : p c = false) :
    (c :: r).dropWhile p = c :: r := by
  rw [List.dropWhile_cons, if_neg (by rw [h]; exact Bool.false_ne_true)]

theorem takeWhile_all (p : Char → Bool) (l : Line) : ∀ x ∈ l.takeWhile p, p x = true :=
  fun _ hx => (List.mem_takeWhile_imp hx)

/-! ## The forms that are no scope opener -/

theorem isSpaceChar_cases (c : Char) (h : isSpaceChar c = true) :
    c = ' ' ∨ c = '\t' ∨ c = '\n' ∨ c = '\x0b' ∨ c = '\x0c' ∨ c = '\r' := by
  simpa [isSpaceChar, or_assoc] using h

theorem not_word_of_space (c : Char) (h : isSpaceChar c = true) : isWordChar c = false := by
  rcases isSpaceChar_cases c h with rfl | rfl | rfl | rfl | rfl | rfl <;> decide

theorem not_space_of_identStart (c : Char) (h : isIdentStart c = true) :
    isSpaceChar c = false := by
  cases hs : isSpaceChar c with
  | false => rfl
  | true =>
    have hw := not_word_of_space c hs
    simp [isIdentStart, hw] at h

theorem afterName_of_shape (sp1 r sp2 b : Line) (c d : Char)
    (h1 : ∀ x ∈ sp1, isSpaceChar x = true) (hc : isIdentStart c = true)
    (hr : ∀ x ∈ r, isWordChar x = true) (h2 : ∀ x ∈ sp2, isSpaceChar x = true)
    (hdw : isWordChar d = false) (hds : isSpaceChar d = false) :
    afterName (sp1 ++ (c :: (r ++ (sp2 ++ d :: b)))) = some (d :: b) := by
  have e1 : (sp1 ++ (c :: (r ++ (sp2 ++ d :: b)))).dropWhile isSpaceChar =
      c :: (r ++ (sp2 ++ d :: b)) := by
    rw [dropWhile_append_all _ _ _ h1, dropWhile_head _ _ _ (not_space_of_identStart c hc)]
  have e2 : (r ++ (sp2 ++ d :: b)).dropWhile isWordChar = sp2 ++ d :: b := by
    rw [dropWhile_append_all _ _ _ hr]
    cases sp2 with
    | nil => exact dropWhile_head _ _ _ hdw
    | cons y sp2 =>
      exact dropWhile_head _ _ _ (not_word_of_space y (h2 y (List.mem_cons_self y sp2)))
  have e3 : (sp2 ++ d :: b).dropWhile isSpaceChar = d :: b := by
    rw [dropWhile_append_all _ _ _ h2, dropWhile_head _ _ _ hds]
  simp only [afterName, e1, hc, e2, e3, if_true]

theorem shape_of_afterName (t u : Line) (h : afterName t = some u) :
    ∃ (sp1 r sp2 : Line) (c : Char), t = sp1 ++ (c :: (r ++ (sp2 ++ u))) ∧
      (∀ x ∈ sp1, isSpaceChar x = true) ∧ isIdentStart c = true ∧
      (∀ x ∈ r, isWordChar x = true) ∧ (∀ x ∈ sp2, isSpaceChar x = true) := by
  unfold afterName at h
  cases hd : t.dropWhile isSpaceChar with
  | nil => rw [hd] at h; simp at h
  | cons c r0 =>
    rw [hd] at h
    simp only at h
    split_ifs at h with hc
    simp only [Option.some.injEq] at h
    refine ⟨t.takeWhile isSpaceChar, r0.takeWhile isWordChar,
      (r0.dropWhile isWordChar).takeWhile isSpaceChar, c, ?_, takeWhile_all _ _, hc,
      takeWhile_all _ _, takeWhile_all _ _⟩
    rw [← h, List.takeWhile_append_dropWhile, List.takeWhile_append_dropWhile, ← hd,
      List.takeWhile_append_dropWhile]

theorem usingNamespaceRest_of_shape (sp b : Line) (hsp : sp ≠ [])
    (hs : ∀ x ∈ sp, isSpaceChar x = true) (hb : wordNext b = false) :
    usingNamespaceRest ("using".toList ++ (sp ++ ("namespace".toList ++ b))) = some b := by
  cases sp with
  | nil => exact absurd rfl hsp
  | cons y sp =>
    have hd : ("using".toList ++ (y :: sp ++ ("namespace".toList ++ b))).drop 5 =
        y :: (sp ++ ("namespace".toList ++ b)) := rfl
    have e1 : (sp ++ ("namespace".toList ++ b)).dropWhile isSpaceChar =
        "namespace".toList ++ b := by
      rw [dropWhile_append_all _ _ _ (fun x hx => hs x (List.mem_cons_of_mem y hx))]
      exact dropWhile_head _ _ _ (by decide)
    have e2 : ("namespace".toList ++ b).drop 9 = b := rfl
    unfold usingNamespaceRest
    rw [if_pos (isPrefixOf_append _ _), hd]
    simp only [e1, e2, hs y (List.mem_cons_self y sp), isPrefixOf_append, hb, Bool.not_false,
      Bool.and_self, if_true]

theorem shape_of_usingNamespaceRest (t u : Line) (h : usingNamespaceRest t = some u) :
    ∃ sp : Line, t = "using".toList ++ (sp ++ ("namespace".toList ++ u)) ∧ sp ≠ [] ∧
      (∀ x ∈ sp, isSpaceChar x = true) ∧ wordNext u = false := by
  unfold usingNamespaceRest at h
  split_ifs at h with hp
  have ht := eq_append_of_isPrefixOf _ _ hp
  cases hd : t.drop 5 with
  | nil => rw [hd] at h; simp at h
  | cons y rest =>
    rw [hd] at h
    simp only at h
    split_ifs at h with hc
    simp only [Option.some.injEq] at h
    simp only [Bool.and_eq_true, Bool.not_eq_true'] at hc
    obtain ⟨⟨hy, hn⟩, hw⟩ := hc
    have hn' := eq_append_of_isPrefixOf _ _ hn
    refine ⟨y :: rest.takeWhile isSpaceChar, ?_, by simp, ?_, by rw [← h]; exact hw⟩
    · have hl : "using".toList.length = 5 := rfl
      have hl9 : "namespace".toList.length = 9 := rfl
      rw [hl, hd] at ht
      rw [hl9, h] at hn'
      rw [ht, List.cons_append, ← hn', List.takeWhile_append_dropWhile]
    · intro x hx
      rcases List.mem_cons.mp hx with rfl | hx'
      · exact hy
      · exact takeWhile_all _ _ x hx'

theorem namespaceAliasRest_of_shape (sp1 r sp2 b : Line) (c : Char)
    (h1 : ∀ x ∈ sp1, isSpaceChar x = true) (hc : isIdentStart c = true)
    (hr : ∀ x ∈ r, isWordChar x = true) (h2 : ∀ x ∈ sp2, isSpaceChar x = true) :
    namespaceAliasRest ("namespace".toList ++ (sp1 ++ (c :: (r ++ (sp2 ++ '=' :: b))))) =
      some b := by
  have hd : ("namespace".toList ++ (sp1 ++ (c :: (r ++ (sp2 ++ '=' :: b))))).drop 9 =
      sp1 ++ (c :: (r ++ (sp2 ++ '=' :: b))) := rfl
  unfold namespaceAliasRest
  rw [if_pos (isPrefixOf_append _ _), hd,
    afterName_of_shape sp1 r sp2 b c '=' h1 hc hr h2 (by decide) (by decide)]
  rfl

theorem shape_of_namespaceAliasRest (t u : Line) (h : namespaceAliasRest t = some u) :
    ∃ (sp1 r sp2 : Line) (c : Char),
      t = "namespace".toList ++ (sp1 ++ (c :: (r ++ (sp2 ++ '=' :: u)))) ∧
      (∀ x ∈ sp1, isSpaceChar x = true) ∧ isIdentStart c = true ∧
      (∀ x ∈ r, isWordChar x = true) ∧ (∀ x ∈ sp2, isSpaceChar x = true) := by
  unfold namespaceAliasRest at h
  split_ifs at h with hp
  have ht := eq_append_of_isPrefixOf _ _ hp
  have hl : "namespace".toList.length = 9 := rfl
  rw [hl] at ht
  cases ha : afterName (t.drop 9) with
  | none => rw [ha] at h; simp at h
  | some v =>
    cases v with
    | nil => rw [ha] at h; simp at h
    | cons d rest =>
      rw [ha] at h
      simp only at h
      split_ifs at h with hd
      simp only [Option.some.injEq] at h
      subst hd h
      obtain ⟨sp1, r, sp2, c, e, c1, c2, c3, c4⟩ := shape_of_afterName _ _ ha
      exact ⟨sp1, r, sp2, c, by rw [ht, e], c1, c2, c3, c4⟩

theorem classMentionRest_of_shape (sp1 r sp2 b : Line) (c d : Char)
    (h1 : ∀ x ∈ sp1, isSpaceChar x = true) (hc : isIdentStart c = true)
    (hr : ∀ x ∈ r, isWordChar x = true) (h2 : ∀ x ∈ sp2, isSpaceChar x = true)
    (hd : d = ';' ∨ d = ',' ∨ d = '>') :
    classMentionRest ("class".toList ++ (sp1 ++ (c :: (r ++ (sp2 ++ d :: b))))) = some b := by
  have hdr : ("class".toList ++ (sp1 ++ (c :: (r ++ (sp2 ++ d :: b))))).drop 5 =
      sp1 ++ (c :: (r ++ (sp2 ++ d :: b))) := rfl
  have hdw : isWordChar d = false := by rcases hd with rfl | rfl | rfl <;> decide
  have hds : isSpaceChar d = false := by rcases hd with rfl | rfl | rfl <;> decide
  unfold classMentionRest
  rw [if_pos (isPrefixOf_append _ _), hdr, afterName_of_shape sp1 r sp2 b c d h1 hc hr h2 hdw hds]
  simp only [hd, if_true]

theorem shape_of_classMentionRest (t u : Line) (h : classMentionRest t = some u) :
    ∃ (sp1 r sp2 : Line) (c d : Char),
      t = "class".toList ++ (sp1 ++ (c :: (r ++ (sp2 ++ d :: u)))) ∧
      (∀ x ∈ sp1, isSpaceChar x = true) ∧ isIdentStart c = true ∧
      (∀ x ∈ r, isWordChar x = true) ∧ (∀ x ∈ sp2, isSpaceChar x = true) ∧
      (d = ';' ∨ d = ',' ∨ d = '>') := by
  unfold classMentionRest at h
  split_ifs at h with hp
  have ht := eq_append_of_isPrefixOf _ _ hp
  have hl : "class".toList.length = 5 := rfl
  rw [hl] at ht
  cases ha : afterName (t.drop 5) with
  | none => rw [ha] at h; simp at h
  | some v =>
    cases v with
    | nil => rw [ha] at h; simp at h
    | cons d rest =>
      rw [ha] at h
      simp only at h
      split_ifs at h with hd
      simp only [Option.some.injEq] at h
      subst h
      obtain ⟨sp1, r, sp2, c, e, c1, c2, c3, c4⟩ := shape_of_afterName _ _ ha
      exact ⟨sp1, r, sp2, c, d, by rw [ht, e], c1, c2, c3, c4, hd⟩

theorem usingNSClass_matchAt (p : Option Char) (t : Line) :
    (usingNSClassExp.matchAt p t).isSome = true ↔
      wordPrev p = false ∧
        ((∃ u, usingNamespaceRest t = some u) ∨ (∃ u, namespaceAliasRest t = some u) ∨
          (∃ u, classMentionRest t = some u)) := by
  simp only [usingNSClassExp]
  cases hw : wordPrev p with
  | true => simp
  | false =>
    cases h1 : usingNamespaceRest t with
    | some u => simp
    | none =>
      cases h2 : namespaceAliasRest t with
      | some u => simp
      | none =>
        cases h3 : classMentionRest t with
        | some u => simp
        | none => simp

/-- The expression `usingNSClassExp` finds a match in a line exactly when the line
has one of the three excluded forms. -/
theorem excludedForm_iff (s : Line) :
    ExcludedForm s ↔ regex_search s usingNSClassExp = true := by
  rw [regex_search_iff]
  constructor
  · intro h
    cases h with
    | usingNamespace a sp b ha hsp hs hb =>
      exact ⟨a, _, rfl, (usingNSClass_matchAt _ _).mpr
        ⟨ha, Or.inl ⟨b, usingNamespaceRest_of_shape sp b hsp hs hb⟩⟩⟩
    | namespaceAlias a sp1 r sp2 b c ha h1 hc hr h2 =>
      exact ⟨a, _, rfl, (usingNSClass_matchAt _ _).mpr
        ⟨ha, Or.inr (Or.inl ⟨b, namespaceAliasRest_of_shape sp1 r sp2 b c h1 hc hr h2⟩)⟩⟩
    | classMention a sp1 r sp2 b c d ha h1 hc hr h2 hd =>
      exact ⟨a, _, rfl, (usingNSClass_matchAt _ _).mpr
        ⟨ha, Or.inr (Or.inr ⟨b, classMentionRest_of_shape sp1 r sp2 b c d h1 hc hr h2 hd⟩)⟩⟩
  · rintro ⟨a, t, rfl, hm⟩
    obtain ⟨ha, h | h | h⟩ := (usingNSClass_matchAt _ _).mp hm
    · obtain ⟨u, hu⟩ := h
      obtain ⟨sp, rfl, hsp, hs, hb⟩ := shape_of_usingNamespaceRest t u hu
      exact ExcludedForm.usingNamespace a sp u ha hsp hs hb
    · obtain ⟨u, hu⟩ := h
      obtain ⟨sp1, r, sp2, c, rfl, h1, hc, hr, h2⟩ := shape_of_namespaceAliasRest t u hu
      exact ExcludedForm.namespaceAlias a sp1 r sp2 u c ha h1 hc hr h2
    · obtain ⟨u, hu⟩ := h
      obtain ⟨sp1, r, sp2, c, d, rfl, h1, hc, hr, h2, hd⟩ := shape_of_classMentionRest t u hu
      exact ExcludedForm.classMention a sp1 r sp2 u c d ha h1 hc hr h2 hd

theorem wholeWordAt_iff (w : Line) (p : Option Char) (t : Line) :
    wholeWordAt w p t = true ↔
      wordPrev p = false ∧ ∃ b, t = w ++ b ∧ wordNext b = false := by
  simp only [wholeWordAt, Bool.and_eq_true, Bool.not_eq_true']
  constructor
  · rintro ⟨⟨h1, h2⟩, h3⟩
    exact ⟨h1, t.drop w.length, eq_append_of_isPrefixOf w t h2, h3⟩
  · rintro ⟨h1, b, rfl, h3⟩
    exact ⟨⟨h1, isPrefixOf_append w b⟩, by simpa using h3⟩

/-- The expression `nsClassExp` finds a match in a line exactly when the line has
one of the two keywords as a whole word. -/
theorem hasKeyword_iff (s : Line) : HasKeyword s ↔ regex_search s nsClassExp = true := by
  rw [regex_search_iff]
  have key : ∀ (p : Option Char) (t : Line), (nsClassExp.matchAt p t).isSome = true ↔
      (wholeWordAt "namespace".toList p t = true ∨ wholeWordAt "class".toList p t = true) := by
    intro p t
    simp only [nsClassExp]
    cases h1 : wholeWordAt "namespace".toList p t with
    | true => simp
    | false =>
      cases h2 : wholeWordAt "class".toList p t with
      | true => simp
      | false => simp
  constructor
  · intro h
    cases h with
    | namespaceWord a b ha hb =>
      exact ⟨a, _, rfl, (key _ _).mpr (Or.inl ((wholeWordAt_iff _ _ _).mpr ⟨ha, b, rfl, hb⟩))⟩
    | classWord a b ha hb =>
      exact ⟨a, _, rfl, (key _ _).mpr (Or.inr ((wholeWordAt_iff _ _ _).mpr ⟨ha, b, rfl, hb⟩))⟩
  · rintro ⟨a, t, rfl, hm⟩
    rcases (key _ _).mp hm with h | h
    · obtain ⟨ha, b, rfl, hb⟩ := (wholeWordAt_iff _ _ _).mp h
      exact HasKeyword.namespaceWord a b ha hb
    · obtain ⟨ha, b, rfl, hb⟩ := (wholeWordAt_iff _ _ _).mp h
      exact HasKeyword.classWord a b ha hb

/-- C17. A normalized line that has one of the three excluded forms (a
using-directive with `namespace`, a namespace alias, `class` and a name followed
by `;`, `,` or `>`) is no scope opener: the classifier leaves the state as it
is, and the line goes through the recorder and the tracker like a line without
keyword.  A line that has the word `namespace` or `class` and none of these forms
is a scope opener: the state is reset and the number of keyword occurrences is
subtracted from the depth.  Examples of the excluded forms follow. -/
theorem scope_classifier (regExp : Regex) (os : Bool) (st : State) (s : Line) :
    (ExcludedForm s → scopeOpener s st = st) ∧
    (ExcludedForm s → ¬ (st.foundLoc = 0 ∧ regex_search s includeExp = true) →
      scanLine regExp os st s =
        closeBrackets os (s.count '}' : Int) (openBrackets s (recordMatch regExp s st))) ∧
    (HasKeyword s → ¬ ExcludedForm s →
      scopeOpener s st =
        { st with lines := [], numOpenBrackets := 0 - (countMatches s nsClassExp : Int),
                  begLineNum := st.endLineNum + 1 }) ∧
    ExcludedForm "using namespace std;".toList ∧
    ExcludedForm "namespace fs = std::filesystem;".toList ∧
    ExcludedForm "class Foo;".toList ∧
    ExcludedForm "template <class T, class U> void f() \x7b".toList ∧
    ExcludedForm "template <class T> void f() \x7b".toList := by
  have hex : ∀ t : State, ExcludedForm s → scopeOpener s t = t := by
    intro t h
    have hu := (excludedForm_iff s).mp h
    simp [scopeOpener, hu]
  refine ⟨hex st, ?_, ?_, ?_, ?_, ?_, ?_, ?_⟩
  · intro h hi
    rw [scanLine_rest _ _ _ _ hi, hex _ h]
  · intro hk hne
    have hns := (hasKeyword_iff s).mp hk
    have hus : regex_search s usingNSClassExp = false := by
      cases hu : regex_search s usingNSClassExp with
      | false => rfl
      | true => exact absurd ((excludedForm_iff s).mpr hu) hne
    simp [scopeOpener, hns, hus, State.reset]
  · exact ExcludedForm.usingNamespace [] [' '] " std;".toList (by decide) (by decide)
      (by decide) (by decide)
  · exact ExcludedForm.namespaceAlias [] [' '] ['s'] [' '] " std::filesystem;".toList 'f'
      (by decide) (by decide) (by decide) (by decide) (by decide)
  · exact ExcludedForm.classMention [] [' '] "oo".toList [] [] 'F' ';'
      (by decide) (by decide) (by decide) (by decide) (by decide) (by decide)
  · exact ExcludedForm.classMention "template <".toList [' '] [] []
      " class U> void f() \x7b".toList 'T' ',' (by decide) (by decide) (by decide) (by decide)
      (by decide) (by decide)
  · exact ExcludedForm.classMention "template <".toList [' '] [] []
      " void f() \x7b".toList 'T' '>' (by decide) (by decide) (by decide) (by decide)
      (by decide) (by decide)

theorem scope_classifier_witness :
    scopeOpener usingLine insideFoo = insideFoo ∧
    body fooExp true insideFoo usingLine =
      .next { insideFoo with lines := [fooLine, usingLine] } ∧
    scopeOpener scopeOpenerLine insideFoo =
      { insideFoo with lines := []
                       numOpenBrackets := 0 - (countMatches scopeOpenerLine nsClassExp : Int)
                       begLineNum := insideFoo.endLineNum + 1 } :=
  ⟨(scope_classifier fooExp true insideFoo usingLine).1
      (scope_classifier fooExp true insideFoo usingLine).2.2.2.1,
    by decide,
    (scope_classifier fooExp true insideFoo scopeOpenerLine).2.2.1
      (HasKeyword.namespaceWord [] " N \x7b".toList (by decide) (by decide))
      (fun h => absurd ((excludedForm_iff scopeOpenerLine).mp h) (by decide))⟩

end FuncFinder
